import Mathlib

/-!
Verification of the hematite tiling window manager's state core.

The definitions below are a shallow embedding of the Rust sources:
`src/state.rs` (the `StateHandler` struct: tags, window states, tiling),
`src/manager.rs` (the `EventHandler` state transitions) and the state
effects of `src/connection.rs` (`handle_config`).  Modelling choices:

* `u16` values are `Nat` kept below `2 ^ 16`, `i16` values are `Int`;
  arithmetic overflow of `u16`/`i16` operations wraps modulo `2 ^ 16`
  (the release-profile semantics of the shipped binary).  Division by
  zero panics in every Rust profile and is modelled as `none`.
* `f32` values reached by the tiling code are small integers and the
  ratio; every operation performed on them by `tile_windows`
  (`mul_add`, `*`, `-` on values far below `2 ^ 24`) is exact for the
  inputs exercised here, so `f32` is modelled as an exact fraction
  (`F32`, an unnormalized `Int` pair, kept executable) with the `as`
  casts truncating toward zero and saturating at the integer bounds.
* X11 resources (connection calls, atoms, the bar) have no effect on
  the `StateHandler`; only their state effects are embedded.  Inputs
  the manager reads from the connection (`generate_id`, `get_focus`)
  appear as event payloads.
-/

namespace Hematite

/-- Reinterpretation of an integer as a wrapped signed 16-bit value:
`as i16` on an integer type, and the release-profile result of `i16`
arithmetic that overflows. -/
def toI16 (n : Int) : Int := (n + 32768) % 65536 - 32768

/-- Wrapping `u16` subtraction. -/
def u16sub (a b : Nat) : Nat := (a % 65536 + (65536 - b % 65536)) % 65536

/-- Wrapping `u16` multiplication. -/
def u16mul (a b : Nat) : Nat := a * b % 65536

/-- Exact-fraction model of an `f32` value: an unnormalized fraction with a
positive denominator.  The floating-point operations `tile_windows` performs
(`*`, `-`, `mul_add` on integers below `2 ^ 24` and the configured ratio)
are exact, so exact fractions model them faithfully. -/
structure F32 where
  num : Int
  den : Int
deriving DecidableEq

instance : Mul F32 := ⟨fun a b => ⟨a.num * b.num, a.den * b.den⟩⟩

instance : Sub F32 := ⟨fun a b => ⟨a.num * b.den - b.num * a.den, a.den * b.den⟩⟩

instance : Add F32 := ⟨fun a b => ⟨a.num * b.den + b.num * a.den, a.den * b.den⟩⟩

/-- `f32::from` on a `u16` (lossless). -/
def natToF32 (n : Nat) : F32 := ⟨n, 1⟩

/-- The `f32` literal `1.0`. -/
def oneF32 : F32 := ⟨1, 1⟩

/-- Comparison of exact fractions (with positive denominators). -/
def F32.ltb (a b : F32) : Bool := a.num * b.den < b.num * a.den

/-- Truncation toward zero, as Rust `as` casts truncate a float before
the saturation to the target range. -/
def F32.trunc (a : F32) : Int := Int.tdiv a.num a.den

/-- `f32 as u16`: truncate toward zero and saturate into `[0, 65535]`. -/
def f32toU16 (q : F32) : Nat := (min (max q.trunc 0) 65535).toNat

/-- `f32 as i16`: truncate toward zero and saturate into `[-32768, 32767]`. -/
def f32toI16 (q : F32) : Int := min (max q.trunc (-32768)) 32767

/-- `state.rs`: the group of a window, affecting how it is tiled. -/
inductive WindowGroup where
  | Master
  | Stack
  | Floating
  | Fullscreen
deriving DecidableEq

/-- `state.rs`: geometry, group and ids of a window. -/
structure WindowState where
  window : Nat
  frame_window : Nat
  x : Int
  y : Int
  width : Nat
  height : Nat
  group : WindowGroup
deriving DecidableEq

/-- `WindowState::new`: base dimensions (0,0,100,100), group `Stack`. -/
def WindowState.new (window frame_window : Nat) : WindowState :=
  ⟨window, frame_window, 0, 0, 100, 100, WindowGroup.Stack⟩

/-- `state.rs`: a virtual desktop: its index, focused window id, windows. -/
structure Tag where
  num : Nat
  focus : Option Nat
  windows : List WindowState
deriving DecidableEq

/-- `Tag::new`: an empty tag. -/
def Tag.new (tag : Nat) : Tag := ⟨tag, none, []⟩

/-- `state.rs`: parameters that help with tiling windows. -/
structure TilingInfo where
  gap : Nat
  ratio : F32
  max_width : Nat
  max_height : Nat
  bar_height : Nat
deriving DecidableEq

/-- `state.rs`: the manager state: nine tags, the active tag index, tiling
parameters. -/
structure StateHandler where
  tags : List Tag
  active_tag : Nat
  tiling : TilingInfo
deriving DecidableEq

/-- `StateHandler::new`: tags 0..=8, active tag 0. -/
def StateHandler.new (tiling : TilingInfo) : StateHandler :=
  ⟨(List.range 9).map Tag.new, 0, tiling⟩

/-- `self.tags[self.active_tag]` (always in range in reachable states). -/
def activeTag (s : StateHandler) : Tag := s.tags.getD s.active_tag (Tag.new 0)

/-- Replace the active tag by `f` of it, mirroring a mutation through
`self.tags[self.active_tag]`. -/
def modifyActive (s : StateHandler) (f : Tag → Tag) : StateHandler :=
  { s with tags := s.tags.set s.active_tag (f (activeTag s)) }

/-- `StateHandler::get_focus`. -/
def get_focus (s : StateHandler) : Option Nat := (activeTag s).focus

/-- The search predicate `w.window == window || w.frame_window == window`
used by `get_window_state` and `get_index_of_window`. -/
def winMatch (id : Nat) (w : WindowState) : Bool :=
  w.window == id || w.frame_window == id

/-- `StateHandler::get_window_state`: first active-tag window whose window
or frame id matches. -/
def get_window_state (s : StateHandler) (id : Nat) : Option WindowState :=
  (activeTag s).windows.find? (winMatch id)

/-- `StateHandler::get_index_of_window`. -/
def get_index_of_window (s : StateHandler) (id : Nat) : Option Nat :=
  (activeTag s).windows.findIdx? (winMatch id)

/-- `StateHandler::add_window`: push onto the active tag, focus it. -/
def add_window (s : StateHandler) (w : WindowState) : StateHandler :=
  modifyActive s fun t =>
    { t with windows := t.windows ++ [w], focus := some w.window }

/-- `StateHandler::set_tag_focus_to_master`: focus the last window of the
active tag, or `none`. -/
def set_tag_focus_to_master (s : StateHandler) : StateHandler :=
  modifyActive s fun t =>
    { t with focus := t.windows.getLast?.map WindowState.window }

/-- The `filter(...).for_each(...)` pass of `set_last_master_others_stack`:
every window that is neither `Floating` nor `Fullscreen` becomes `Stack`. -/
def stackify (w : WindowState) : WindowState :=
  if w.group ≠ WindowGroup.Floating ∧ w.group ≠ WindowGroup.Fullscreen then
    { w with group := WindowGroup.Stack }
  else w

/-- The `last_mut` pass of `set_last_master_others_stack`: the last window
becomes `Master` unless it is `Floating` or `Fullscreen` (early return). -/
def setLastMaster (ws : List WindowState) : List WindowState :=
  match ws.getLast? with
  | none => ws
  | some w =>
    if w.group = WindowGroup.Floating ∨ w.group = WindowGroup.Fullscreen then ws
    else ws.dropLast ++ [{ w with group := WindowGroup.Master }]

/-- `StateHandler::set_last_master_others_stack`. -/
def set_last_master_others_stack (s : StateHandler) : StateHandler :=
  modifyActive s fun t => { t with windows := setLastMaster (t.windows.map stackify) }

/-- `self.get_active_tag_windows().len().clamp(1, 100) - 1` of
`tile_windows`. -/
def stackCountOf (len : Nat) : Nat := min (max len 1) 100 - 1

/-- The per-window body of the `tile_windows` loop: `sc` is `stack_count`,
`i` the enumeration index over the full window list.  `none` is the
division-by-zero panic of the `Stack` arm when `sc = 0`. -/
def tileOne (info : TilingInfo) (sc i : Nat) (w : WindowState) : Option WindowState :=
  match w.group with
  | WindowGroup.Master => some { w with
      x := toI16 info.gap,
      y := toI16 (toI16 info.gap + toI16 info.bar_height),
      width := if sc = 0 then u16sub info.max_width (u16mul info.gap 2)
        else f32toU16 (natToF32 info.max_width * (oneF32 - info.ratio) - natToF32 info.gap * natToF32 2),
      height := u16sub (u16sub info.max_height (u16mul info.gap 2)) info.bar_height }
  | WindowGroup.Stack =>
    if sc = 0 then none
    else some { w with
      x := f32toI16 (natToF32 info.max_width * (oneF32 - info.ratio)),
      y := if i = 0 then
          toI16 (toI16 ((i * (info.max_height / sc) + info.gap : Nat) : Int) + toI16 info.bar_height)
        else toI16 ((i * (info.max_height / sc) : Nat) : Int),
      width := u16sub (f32toU16 (natToF32 info.max_width * info.ratio)) info.gap,
      height := if i = 0 then
          u16sub (u16sub (info.max_height / sc % 65536) (u16mul info.gap 2)) info.bar_height
        else u16sub (info.max_height / sc % 65536) info.gap }
  | WindowGroup.Floating => some w
  | WindowGroup.Fullscreen => some { w with
      x := 0, y := 0, width := info.max_width, height := info.max_height }

/-- The `iter_mut().enumerate().for_each` loop of `tile_windows`, index
threaded explicitly. -/
def tileList (info : TilingInfo) (sc : Nat) : Nat → List WindowState → Option (List WindowState)
  | _, [] => some []
  | i, w :: ws =>
    match tileOne info sc i w, tileList info sc (i + 1) ws with
    | some w', some ws' => some (w' :: ws')
    | _, _ => none

/-- `StateHandler::tile_windows`. -/
def tile_windows (s : StateHandler) : Option StateHandler :=
  (tileList s.tiling (stackCountOf (activeTag s).windows.length) 0 (activeTag s).windows).map
    fun ws' => modifyActive s fun t => { t with windows := ws' }

/-- `StateHandler::refresh`: group assignment, then tiling. -/
def refresh (s : StateHandler) : Option StateHandler :=
  tile_windows (set_last_master_others_stack s)

/-- `Vec::swap` on a list (both indices in bounds whenever the code calls
it, since they come from `position`). -/
def listSwap (l : List WindowState) (i j : Nat) : List WindowState :=
  match l.get? i, l.get? j with
  | some a, some b => (l.set i b).set j a
  | _, _ => l

/-- `StateHandler::swap_master`.  `none` models the `windows[len - 1]`
index panic when the tag is empty but a focus is set; the `windows[len - 2]`
read is guarded by `1 < len`, so its fallback arm is never taken. -/
def swap_master (s : StateHandler) : Option StateHandler :=
  match (activeTag s).focus with
  | none => some s
  | some f =>
    match (activeTag s).windows.getLast? with
    | none => none
    | some lastw =>
      let ws := (activeTag s).windows
      let master : Nat :=
        if lastw.window = f ∧ 1 < ws.length then
          match ws.get? (ws.length - 2) with
          | some w2 => w2.window
          | none => lastw.window
        else lastw.window
      match get_index_of_window s f, get_index_of_window s master with
      | some fi, some mi =>
        some (modifyActive s fun t => { t with windows := listSwap t.windows fi mi })
      | _, _ => some s

/-- `StateHandler::switch_focus_next`.  The focus index is found by window
id only; the addition and the `len as i16` cast wrap as `i16`; `rem_euclid`
panics on a zero modulus and on `i16::MIN % -1` (both modelled `none`,
both unreachable from the guards for tags of fewer than `2 ^ 15` windows). -/
def switch_focus_next (s : StateHandler) (change : Int) : Option StateHandler :=
  match (activeTag s).focus with
  | none => some s
  | some f =>
    match (activeTag s).windows.findIdx? (fun w => w.window == f) with
    | none => some s
    | some j =>
      let fi := toI16 (toI16 j + toI16 change)
      let m := toI16 (activeTag s).windows.length
      if m = 0 then none
      else if fi = -32768 ∧ m = -1 then none
      else
        match (activeTag s).windows.get? (fi % m).toNat with
        | none => none
        | some w => some (modifyActive s fun t => { t with focus := some w.window })

/-- `EventHandler::change_active_tag`: guarded no-op on the current tag
(the connection map/unmap calls have no state effect). -/
def change_active_tag (s : StateHandler) (tag : Nat) : StateHandler :=
  if s.active_tag = tag then s else { s with active_tag := tag }

/-- `EventHandler::move_window`: `connFocus` is the id the connection's
`get_focus()` returned.  Push a copy of the matched state onto the target
tag, retain the active tag by window id, refocus the active tag's master. -/
def move_window (s : StateHandler) (tag : Nat) (connFocus : Nat) : StateHandler :=
  if s.active_tag = tag then s
  else
    match get_window_state s connFocus with
    | none => s
    | some st =>
      let dest := s.tags.getD tag (Tag.new 0)
      let s1 : StateHandler :=
        { s with tags := s.tags.set tag { dest with windows := dest.windows ++ [st] } }
      let s2 := modifyActive s1 fun t =>
        { t with windows := t.windows.filter (fun w => w.window != connFocus) }
      set_tag_focus_to_master s2

/-- `(self.state.tiling.ratio + change).clamp(0.15, 0.85)` of the
`ChangeRatio` arm.  The exact clamp bounds play no role in any claim, so
the `f32` literals are taken at their decimal values. -/
def clampRatio (r : F32) : F32 :=
  if F32.ltb r ⟨3, 20⟩ then ⟨3, 20⟩ else if F32.ltb ⟨17, 20⟩ r then ⟨17, 20⟩ else r

/-- Mutation through `get_mut_window_state`: apply `f` to the first window
matched by `p`, keep the rest. -/
def updateFirst (p : WindowState → Bool) (f : WindowState → WindowState) :
    List WindowState → List WindowState
  | [] => []
  | w :: ws => if p w then f w :: ws else w :: updateFirst p f ws

/-- The state effect of `ConnectionHandler::handle_config`: a `Floating`
window adopts the requested geometry verbatim, any other window keeps its
stored geometry. -/
def adoptIfFloating (x y : Int) (width height : Nat) (w : WindowState) : WindowState :=
  if w.group = WindowGroup.Floating then
    { w with x := x, y := y, width := width, height := height }
  else w

/-- `EventHandler::handle_config` composed with the connection layer's
`handle_config`: the `Bool` is whether the configure request was forwarded
to the X server (`configure_window` acknowledges it); an untracked window
is ignored. -/
def handle_config (s : StateHandler) (id : Nat) (x y : Int) (width height : Nat) :
    StateHandler × Bool :=
  match get_window_state s id with
  | none => (s, false)
  | some _ =>
    (modifyActive s fun t =>
      { t with windows := updateFirst (winMatch id) (adoptIfFloating x y width height) t.windows },
     true)

/-- Mutation through `get_mut_window_state` setting only the group, used by
the fullscreen client-message arms. -/
def setGroupOfWindow (s : StateHandler) (id : Nat) (g : WindowGroup) : StateHandler :=
  modifyActive s fun t =>
    { t with windows := updateFirst (winMatch id) (fun w => { w with group := g }) t.windows }

/-- The events `EventHandler::handle_event` handles, with the values the
manager reads from outside the state inlined as payloads: `frame` is the
id `generate_id()` returns, `connFocus` the id the connection's
`get_focus()` returns, and the tag payloads are the `n - 1` / wrapped
indices the key table produces (1..=9 in the generated config).  A
`clientMessageFullscreen` carries `data[0]` of a `_NET_WM_STATE` /
`_NET_WM_STATE_FULLSCREEN` message with `data[1] ≠ 0`; messages that fail
those guards, unbound keys and unknown events leave the state untouched. -/
inductive WMEvent where
  | mapRequest (window frame : Nat)
  | unmapNotify (window : Nat)
  | keySwitchTag (n : Fin 9)
  | keyMoveWindow (n : Fin 9) (connFocus : Nat)
  | keySpawn
  | keyExitFocused
  | keyChangeRatio (change : F32)
  | keyNextFocus (change : Int)
  | keyNextTag (change : Int)
  | keySwapMaster
  | enterNotify (child event : Nat)
  | configureRequest (window : Nat) (x y : Int) (width height : Nat)
  | clientMessageFullscreen (window : Nat) (flag : Nat)

/-- `EventHandler::handle_map_request`: ignore tracked windows (the check
searches the active tag only), else add and refresh. -/
def handle_map_request (s : StateHandler) (w f : Nat) : Option StateHandler :=
  if (get_window_state s w).isSome then some s
  else refresh (add_window s (WindowState.new w f))

/-- `EventHandler::handle_unmap_notify`: ignore untracked windows, else
retain by window id, refocus the master, refresh. -/
def handle_unmap_notify (s : StateHandler) (w : Nat) : Option StateHandler :=
  match get_window_state s w with
  | none => some s
  | some _ =>
    refresh (set_tag_focus_to_master (modifyActive s fun t =>
      { t with windows := t.windows.filter (fun x => x.window != w) }))

/-- `EventHandler::handle_enter`: focus the window matched by `child`,
then the one matched by `event`, then refresh. -/
def handle_enter (s : StateHandler) (child ev : Nat) : Option StateHandler :=
  let s1 := match get_window_state s child with
    | some w => modifyActive s fun t => { t with focus := some w.window }
    | none => s
  let s2 := match get_window_state s1 ev with
    | some w => modifyActive s1 fun t => { t with focus := some w.window }
    | none => s1
  refresh s2

/-- `EventHandler::handle_client_message`, fullscreen arm: `data[0] = 0`
resets the group to `Stack`, `1` sets `Fullscreen`, anything else is
ignored; either mutation refreshes. -/
def handle_client_message (s : StateHandler) (id flag : Nat) : Option StateHandler :=
  match get_window_state s id with
  | none => some s
  | some _ =>
    if flag = 0 then refresh (setGroupOfWindow s id WindowGroup.Stack)
    else if flag = 1 then refresh (setGroupOfWindow s id WindowGroup.Fullscreen)
    else some s

/-- `(self.state.active_tag as i16 + change).rem_euclid(9) as usize` of the
`NextTag` arm. -/
def nextTagIndex (active : Nat) (change : Int) : Nat :=
  ((toI16 ((active : Int) + toI16 change)) % 9).toNat

/-- One transition of `EventHandler::handle_event`: the state effect of
handling one event.  `none` is a panic (the process aborts and no state
results).  Every key-press arm falls through to `refresh()` except
`ExitFocusedWindow` without a focus, which returns early. -/
def step (s : StateHandler) : WMEvent → Option StateHandler
  | WMEvent.mapRequest w f => handle_map_request s w f
  | WMEvent.unmapNotify w => handle_unmap_notify s w
  | WMEvent.keySwitchTag n => refresh (change_active_tag s n)
  | WMEvent.keyMoveWindow n cf => refresh (move_window s n cf)
  | WMEvent.keySpawn => refresh s
  | WMEvent.keyExitFocused => if (get_focus s).isSome then refresh s else some s
  | WMEvent.keyChangeRatio d =>
    refresh { s with tiling := { s.tiling with ratio := clampRatio (s.tiling.ratio + d) } }
  | WMEvent.keyNextFocus c => (switch_focus_next s c).bind refresh
  | WMEvent.keyNextTag c => refresh (change_active_tag s (nextTagIndex s.active_tag c))
  | WMEvent.keySwapMaster => (swap_master s).bind refresh
  | WMEvent.enterNotify c e => handle_enter s c e
  | WMEvent.configureRequest id x y w h => some (handle_config s id x y w h).1
  | WMEvent.clientMessageFullscreen id flag => handle_client_message s id flag

/-- The aggregate states reachable from the startup state by handled
events. -/
inductive Reachable (info : TilingInfo) : StateHandler → Prop where
  | init : Reachable info (StateHandler.new info)
  | tr {s s' : StateHandler} {e : WMEvent} :
      Reachable info s → step s e = some s' → Reachable info s'

/-- The window ids of tag `i`. -/
def IdsAt (s : StateHandler) (i : Nat) : List Nat :=
  (s.tags.getD i (Tag.new 0)).windows.map WindowState.window

/-- An event is within the duplicate guards the code actually has: a map
request only for a window id tracked in no tag (the code checks the active
tag alone), and a move only when the externally read focus id is not the
frame id of an active-tag window (the removal filters by window id). -/
def goodEvent (s : StateHandler) : WMEvent → Prop
  | WMEvent.mapRequest w _ => ∀ i < 9, w ∉ IdsAt s i
  | WMEvent.keyMoveWindow _ cf => ∀ w ∈ (activeTag s).windows, w.frame_window ≠ cf
  | _ => True

/-- Reachability under the `goodEvent` restriction. -/
inductive ReachableSafe (info : TilingInfo) : StateHandler → Prop where
  | init : ReachableSafe info (StateHandler.new info)
  | tr {s s' : StateHandler} {e : WMEvent} :
      ReachableSafe info s → goodEvent s e → step s e = some s' → ReachableSafe info s'

/-- A tag's focus invariant: a set focus names a member window, an empty
tag has no focus. -/
def tagOk (t : Tag) : Prop :=
  (∀ fid, t.focus = some fid → fid ∈ t.windows.map WindowState.window) ∧
  (t.windows = [] → t.focus = none)

/-- The focus invariant of the aggregate state. -/
def FocusInvariant (s : StateHandler) : Prop :=
  s.tags.length = 9 ∧ s.active_tag < 9 ∧
  ∀ i < 9, tagOk (s.tags.getD i (Tag.new 0))

/-- The uniqueness invariant: ids are unique within each tag and disjoint
across tags. -/
def UniqueInvariant (s : StateHandler) : Prop :=
  s.tags.length = 9 ∧ s.active_tag < 9 ∧
  (∀ i < 9, (IdsAt s i).Nodup) ∧
  (∀ i j, i < 9 → j < 9 → i ≠ j → ∀ x ∈ IdsAt s i, x ∉ IdsAt s j)

/-- `steps`: folding `step` over a list of events. -/
def steps (s : StateHandler) : List WMEvent → Option StateHandler
  | [] => some s
  | e :: es => (step s e).bind fun s' => steps s' es

/-- Iterating `switch_focus_next 1`, as successive `NextFocus(1)` key
presses call it. -/
def switchIter : Nat → StateHandler → Option StateHandler
  | 0, s => some s
  | k + 1, s => (switch_focus_next s 1).bind (switchIter k)

/-! Concrete fixtures: the spec's scenario parameters (`max_width = 1920`,
`max_height = 1080`, `gap = 10`, `bar_height = 18`, `ratio = 0.5`) and
states whose active tag 0 holds given windows. -/

/-- The spec scenario's tiling parameters. -/
def info1920 : TilingInfo := ⟨10, ⟨1, 2⟩, 1920, 1080, 18⟩

/-- A state whose tag 0 (active) holds `ws` with focus `fo`, tags 1-8
empty. -/
def testState (info : TilingInfo) (ws : List WindowState) (fo : Option Nat) : StateHandler :=
  ⟨Tag.mk 0 fo ws :: (List.range 8).map (fun n => Tag.new (n + 1)), 0, info⟩

/-- Window id and geometry of each active-tag window. -/
def geomOfActive (s : StateHandler) : List (Nat × Int × Int × Nat × Nat) :=
  (activeTag s).windows.map fun w => (w.window, w.x, w.y, w.width, w.height)

/-- The groups of the active-tag windows. -/
def groupsOfActive (s : StateHandler) : List WindowGroup :=
  (activeTag s).windows.map WindowState.group

/-- The heights of the active-tag windows. -/
def heightsOfActive (s : StateHandler) : List Nat :=
  (activeTag s).windows.map WindowState.height

/-- The spec scenario's state: windows A(id 1), B(id 2), C(id 3) added in
that order, all in the default `Stack` group. -/
def c1State : StateHandler :=
  testState info1920 [WindowState.new 1 101, WindowState.new 2 102, WindowState.new 3 103] (some 3)

/-- A tag whose last window is `Floating` while an earlier `Stack` window
exists: A(id 1, Stack) then B(id 2, Floating). -/
def c2State : StateHandler :=
  testState info1920
    [⟨1, 101, 0, 0, 100, 100, WindowGroup.Stack⟩, ⟨2, 102, 0, 0, 100, 100, WindowGroup.Floating⟩]
    (some 1)

/-- A tag with one `Stack`, one `Floating` and one `Master` window, in
that order. -/
def c3State : StateHandler :=
  testState info1920
    [⟨1, 101, 0, 0, 100, 100, WindowGroup.Stack⟩, ⟨2, 102, 0, 0, 100, 100, WindowGroup.Floating⟩,
     ⟨3, 103, 0, 0, 100, 100, WindowGroup.Master⟩]
    (some 3)

/-- A tag holding a single window whose group is `Stack`. -/
def c5State : StateHandler :=
  testState info1920 [⟨1, 101, 0, 0, 100, 100, WindowGroup.Stack⟩] (some 1)

/-- A 3-window tag with the first window focused. -/
def c9State : StateHandler :=
  testState info1920 [WindowState.new 1 101, WindowState.new 2 102, WindowState.new 3 103] (some 1)

/-- Map window 1, move it to tag 1 (the externally read focus is 1), then
handle a second map request for window 1. -/
def c4Events : List WMEvent :=
  [WMEvent.mapRequest 1 100, WMEvent.keyMoveWindow 1 1, WMEvent.mapRequest 1 101]

/-- The divisor the claim (spec §4.1 layout) states: the count of `Stack`
windows, floored to a minimum of 1.  Stated from the spec's words, for
comparison with the code's `stackCountOf`. -/
def specStackDivisor (ws : List WindowState) : Nat :=
  max (ws.countP (fun w => w.group == WindowGroup.Stack)) 1

/-- The stack-window height formula the claim states (spec §4.1):
`max_height/N − gap`, with an additional `−gap−bar_height` only when
`i = 0`.  Stated from the spec's words. -/
def specStackHeight (info : TilingInfo) (n i : Nat) : Nat :=
  if i = 0 then info.max_height / n - info.gap - info.gap - info.bar_height
  else info.max_height / n - info.gap

/-- A state with an empty active tag. -/
def emptyState : StateHandler := testState info1920 [] none

/-- A group-assigned tag: two Stack windows then the Master, as `refresh`
produces on a three-window tag without Floating/Fullscreen windows. -/
def c3GoodState : StateHandler :=
  testState info1920
    [⟨1, 101, 0, 0, 100, 100, WindowGroup.Stack⟩, ⟨2, 102, 0, 0, 100, 100, WindowGroup.Stack⟩,
     ⟨3, 103, 0, 0, 100, 100, WindowGroup.Master⟩]
    (some 3)

/-- Skeleton preservation between two states: same active tag, tiling,
tag count, untouched non-active tags, and per-tag focus, tag number and
window/frame id sequences.  `refresh` preserves the skeleton: it only
rewrites groups and geometry of the active tag's windows. -/
def Skel (s s' : StateHandler) : Prop :=
  s'.active_tag = s.active_tag ∧
  s'.tiling = s.tiling ∧
  s'.tags.length = s.tags.length ∧
  (∀ i d, i ≠ s.active_tag → s'.tags.getD i d = s.tags.getD i d) ∧
  (∀ i d, (s'.tags.getD i d).focus = (s.tags.getD i d).focus) ∧
  (∀ i d, (s'.tags.getD i d).num = (s.tags.getD i d).num) ∧
  (∀ i d, (s'.tags.getD i d).windows.map WindowState.window =
    (s.tags.getD i d).windows.map WindowState.window) ∧
  (∀ i d, (s'.tags.getD i d).windows.map WindowState.frame_window =
    (s.tags.getD i d).windows.map WindowState.frame_window)

/-! Helper lemmas: list indexing, `modifyActive`, and the skeleton facts
of the group-assignment and tiling passes. -/

theorem getD_set_same {α : Type _} (l : List α) (i : Nat) (a d : α) (h : i < l.length) :
    (l.set i a).getD i d = a := by
  simp [List.getD_eq_getElem?_getD, List.getElem?_set_self h]

theorem getD_set_ne {α : Type _} (l : List α) {i j : Nat} (a d : α) (h : i ≠ j) :
    (l.set i a).getD j d = l.getD j d := by
  simp [List.getD_eq_getElem?_getD, List.getElem?_set_ne h]

theorem set_getD_same {α : Type _} : ∀ (l : List α) (i : Nat) (d : α),
    l.set i (l.getD i d) = l
  | [], _, _ => rfl
  | _ :: _, 0, _ => rfl
  | x :: xs, i + 1, d => congrArg (x :: ·) (set_getD_same xs i d)

theorem modifyActive_active_tag (s : StateHandler) (f : Tag → Tag) :
    (modifyActive s f).active_tag = s.active_tag := rfl

theorem modifyActive_tiling (s : StateHandler) (f : Tag → Tag) :
    (modifyActive s f).tiling = s.tiling := rfl

theorem modifyActive_tags_length (s : StateHandler) (f : Tag → Tag) :
    (modifyActive s f).tags.length = s.tags.length := by
  simp [modifyActive]

theorem modifyActive_getD_ne (s : StateHandler) (f : Tag → Tag) {i : Nat} (d : Tag)
    (h : i ≠ s.active_tag) :
    (modifyActive s f).tags.getD i d = s.tags.getD i d :=
  getD_set_ne _ _ _ (fun hh => h hh.symm)

theorem activeTag_modifyActive (s : StateHandler) (f : Tag → Tag)
    (h : s.active_tag < s.tags.length) :
    activeTag (modifyActive s f) = f (activeTag s) :=
  getD_set_same _ _ _ _ h

theorem modifyActive_oob (s : StateHandler) (f : Tag → Tag)
    (h : s.tags.length ≤ s.active_tag) : modifyActive s f = s := by
  simp [modifyActive, List.set_eq_of_length_le h]

theorem Skel.refl (s : StateHandler) : Skel s s :=
  ⟨rfl, rfl, rfl, fun _ _ _ => rfl, fun _ _ => rfl, fun _ _ => rfl, fun _ _ => rfl,
   fun _ _ => rfl⟩

theorem Skel.trans {s₁ s₂ s₃ : StateHandler} (h : Skel s₁ s₂) (h' : Skel s₂ s₃) :
    Skel s₁ s₃ := by
  obtain ⟨a, t, l, ne, fo, nu, w, fr⟩ := h
  obtain ⟨a', t', l', ne', fo', nu', w', fr'⟩ := h'
  refine ⟨a'.trans a, t'.trans t, l'.trans l, ?_, ?_, ?_, ?_, ?_⟩
  · intro i d hi
    exact (ne' i d (a ▸ hi)).trans (ne i d hi)
  · intro i d
    exact (fo' i d).trans (fo i d)
  · intro i d
    exact (nu' i d).trans (nu i d)
  · intro i d
    exact (w' i d).trans (w i d)
  · intro i d
    exact (fr' i d).trans (fr i d)

theorem getD_eq_of_lt {α : Type _} (l : List α) (i : Nat) (d d' : α) (h : i < l.length) :
    l.getD i d = l.getD i d' := by
  simp [List.getD_eq_getElem?_getD, List.getElem?_eq_getElem h]

theorem skel_modify (s : StateHandler) (f : Tag → Tag)
    (hfo : (f (activeTag s)).focus = (activeTag s).focus)
    (hnum : (f (activeTag s)).num = (activeTag s).num)
    (hW : (f (activeTag s)).windows.map WindowState.window =
      (activeTag s).windows.map WindowState.window)
    (hFr : (f (activeTag s)).windows.map WindowState.frame_window =
      (activeTag s).windows.map WindowState.frame_window) :
    Skel s (modifyActive s f) := by
  by_cases hin : s.active_tag < s.tags.length
  · have hAt : ∀ d, (modifyActive s f).tags.getD s.active_tag d = f (activeTag s) :=
      fun d => getD_set_same _ _ _ _ hin
    have hOld : ∀ d, s.tags.getD s.active_tag d = activeTag s :=
      fun d => getD_eq_of_lt s.tags _ d (Tag.new 0) hin
    refine ⟨rfl, rfl, modifyActive_tags_length s f, ?_, ?_, ?_, ?_, ?_⟩
    · intro i d hi
      exact modifyActive_getD_ne s f d hi
    · intro i d
      by_cases hi : i = s.active_tag
      · rw [hi, hAt d, hOld d, hfo]
      · rw [modifyActive_getD_ne s f d hi]
    · intro i d
      by_cases hi : i = s.active_tag
      · rw [hi, hAt d, hOld d, hnum]
      · rw [modifyActive_getD_ne s f d hi]
    · intro i d
      by_cases hi : i = s.active_tag
      · rw [hi, hAt d, hOld d, hW]
      · rw [modifyActive_getD_ne s f d hi]
    · intro i d
      by_cases hi : i = s.active_tag
      · rw [hi, hAt d, hOld d, hFr]
      · rw [modifyActive_getD_ne s f d hi]
  · rw [modifyActive_oob s f (Nat.le_of_not_lt hin)]
    exact Skel.refl s

theorem stackify_proj {β : Type _} (g : WindowState → β)
    (hg : ∀ w gr, g { w with group := gr } = g w) (w : WindowState) :
    g (stackify w) = g w := by
  unfold stackify
  split
  · exact hg w WindowGroup.Stack
  · rfl

theorem setLastMaster_map {β : Type _} (g : WindowState → β)
    (hg : ∀ w gr, g { w with group := gr } = g w) (ws : List WindowState) :
    (setLastMaster ws).map g = ws.map g := by
  unfold setLastMaster
  cases hl : ws.getLast? with
  | none => rfl
  | some w =>
    by_cases hw : w.group = WindowGroup.Floating ∨ w.group = WindowGroup.Fullscreen
    · simp [hw]
    · have hne : ws ≠ [] := by
        intro h
        rw [h] at hl
        exact Option.noConfusion hl
      have hlast : w = ws.getLast hne := by
        rw [List.getLast?_eq_getLast ws hne] at hl
        exact (Option.some.inj hl).symm
      simp only [hw, if_false]
      calc (ws.dropLast ++ [{ w with group := WindowGroup.Master }]).map g
          = ws.dropLast.map g ++ [g w] := by simp [hg]
        _ = ws.dropLast.map g ++ [g (ws.getLast hne)] := by rw [← hlast]
        _ = (ws.dropLast ++ [ws.getLast hne]).map g := by simp
        _ = ws.map g := by rw [List.dropLast_append_getLast]

theorem stackifyMap_map {β : Type _} (g : WindowState → β)
    (hg : ∀ w gr, g { w with group := gr } = g w) (ws : List WindowState) :
    (ws.map stackify).map g = ws.map g := by
  rw [List.map_map]
  exact List.map_congr_left fun w _ => stackify_proj g hg w

theorem tileOne_parts {info : TilingInfo} {sc i : Nat} : ∀ {w w' : WindowState},
    tileOne info sc i w = some w' →
    w'.window = w.window ∧ w'.frame_window = w.frame_window ∧ w'.group = w.group := by
  intro w w' h
  cases w with
  | mk ww wf wx wy wwd wht wg =>
    cases wg <;> simp only [tileOne] at h
    · simp only [Option.some.injEq] at h
      rw [← h]
      exact ⟨rfl, rfl, rfl⟩
    · split at h
      · exact Option.noConfusion h
      · simp only [Option.some.injEq] at h
        rw [← h]
        exact ⟨rfl, rfl, rfl⟩
    · simp only [Option.some.injEq] at h
      rw [← h]
      exact ⟨rfl, rfl, rfl⟩
    · simp only [Option.some.injEq] at h
      rw [← h]
      exact ⟨rfl, rfl, rfl⟩

theorem tileList_maps {info : TilingInfo} {sc : Nat} :
    ∀ {i : Nat} {ws ws' : List WindowState}, tileList info sc i ws = some ws' →
    ws'.map WindowState.window = ws.map WindowState.window ∧
    ws'.map WindowState.frame_window = ws.map WindowState.frame_window ∧
    ws'.map WindowState.group = ws.map WindowState.group ∧
    ws'.length = ws.length := by
  intro i ws
  induction ws generalizing i with
  | nil =>
    intro ws' h
    cases h
    exact ⟨rfl, rfl, rfl, rfl⟩
  | cons w rest ih =>
    intro ws' h
    unfold tileList at h
    cases h1 : tileOne info sc i w <;> rw [h1] at h
    · exact Option.noConfusion h
    · cases h2 : tileList info sc (i + 1) rest <;> rw [h2] at h
      · exact Option.noConfusion h
      · cases h
        obtain ⟨pw, pf, pg⟩ := tileOne_parts h1
        obtain ⟨qw, qf, qg, ql⟩ := ih h2
        refine ⟨?_, ?_, ?_, ?_⟩ <;> simp [pw, pf, pg, qw, qf, qg, ql]

theorem tile_windows_eq {s s' : StateHandler} (h : tile_windows s = some s') :
    ∃ ws', tileList s.tiling (stackCountOf (activeTag s).windows.length) 0
        (activeTag s).windows = some ws' ∧
      s' = modifyActive s fun t => { t with windows := ws' } := by
  unfold tile_windows at h
  cases hl : tileList s.tiling (stackCountOf (activeTag s).windows.length) 0
      (activeTag s).windows <;> rw [hl] at h
  · exact Option.noConfusion h
  · exact ⟨_, rfl, (Option.some.inj h).symm⟩

theorem skel_set_last_master (s : StateHandler) :
    Skel s (set_last_master_others_stack s) := by
  refine skel_modify s _ rfl rfl ?_ ?_
  · exact (setLastMaster_map WindowState.window (fun _ _ => rfl) _).trans
      (stackifyMap_map WindowState.window (fun _ _ => rfl) _)
  · exact (setLastMaster_map WindowState.frame_window (fun _ _ => rfl) _).trans
      (stackifyMap_map WindowState.frame_window (fun _ _ => rfl) _)

theorem skel_tile_windows {s s' : StateHandler} (h : tile_windows s = some s') :
    Skel s s' := by
  obtain ⟨ws', hl, rfl⟩ := tile_windows_eq h
  obtain ⟨hw, hf, _, _⟩ := tileList_maps hl
  exact skel_modify s _ rfl rfl hw hf

theorem refresh_skel {s s' : StateHandler} (h : refresh s = some s') : Skel s s' :=
  (skel_set_last_master s).trans (skel_tile_windows h)

theorem skel_activeTag {s s' : StateHandler} (h : Skel s s') :
    (activeTag s').focus = (activeTag s).focus ∧
    (activeTag s').windows.map WindowState.window =
      (activeTag s).windows.map WindowState.window ∧
    (activeTag s').windows.map WindowState.frame_window =
      (activeTag s).windows.map WindowState.frame_window := by
  obtain ⟨a, _, _, _, fo, _, w, fr⟩ := h
  unfold activeTag
  rw [a]
  exact ⟨fo _ _, w _ _, fr _ _⟩

theorem modifyActive_id (s : StateHandler) (f : Tag → Tag)
    (hf : f (activeTag s) = activeTag s) : modifyActive s f = s := by
  unfold modifyActive
  rw [hf]
  show { s with tags := s.tags.set s.active_tag (s.tags.getD s.active_tag (Tag.new 0)) } = s
  rw [set_getD_same]

theorem getD_oob {α : Type _} (l : List α) {i : Nat} (d : α) (h : l.length ≤ i) :
    l.getD i d = d := by
  simp [List.getD_eq_getElem?_getD, List.getElem?_eq_none h]

theorem get_window_state_in_range {s : StateHandler} {id : Nat} {wst : WindowState}
    (h : get_window_state s id = some wst) : s.active_tag < s.tags.length := by
  by_contra hlt
  have : activeTag s = Tag.new 0 := getD_oob _ _ (Nat.le_of_not_lt hlt)
  rw [get_window_state, this] at h
  exact Option.noConfusion h

theorem updateFirst_eq_self {p : WindowState → Bool} {f : WindowState → WindowState} :
    ∀ {ws : List WindowState}, (∀ w, List.find? p ws = some w → f w = w) →
    updateFirst p f ws = ws := by
  intro ws
  induction ws with
  | nil => intro _; rfl
  | cons w rest ih =>
    intro hw
    unfold updateFirst
    by_cases hp : p w
    · rw [if_pos hp, hw w (by rw [List.find?_cons, hp])]
    · rw [if_neg hp, ih]
      intro v hv
      exact hw v (by rw [List.find?_cons]; simp only [Bool.not_eq_true] at hp; rw [hp]; exact hv)

theorem find?_updateFirst {p : WindowState → Bool} {f : WindowState → WindowState}
    (hpf : ∀ w, p w = true → p (f w) = true) :
    ∀ ws : List WindowState,
      List.find? p (updateFirst p f ws) = (List.find? p ws).map f := by
  intro ws
  induction ws with
  | nil => rfl
  | cons w rest ih =>
    unfold updateFirst
    by_cases hp : p w
    · rw [if_pos hp, List.find?_cons, List.find?_cons, hp, hpf w hp]
      rfl
    · simp only [Bool.not_eq_true] at hp
      rw [if_neg (by simp [hp]), List.find?_cons, List.find?_cons, hp, ih]

theorem winMatch_adopt (id : Nat) (x y : Int) (width height : Nat) (w : WindowState) :
    winMatch id (adoptIfFloating x y width height w) = winMatch id w := by
  unfold adoptIfFloating
  split <;> rfl

theorem updateFirst_map_of_proj {β : Type _} {p : WindowState → Bool}
    {f : WindowState → WindowState} (g : WindowState → β)
    (hg : ∀ w, g (f w) = g w) :
    ∀ ws : List WindowState, (updateFirst p f ws).map g = ws.map g := by
  intro ws
  induction ws with
  | nil => rfl
  | cons w rest ih =>
    unfold updateFirst
    split
    · simp [hg]
    · simp [ih]

theorem tileOne_isSome {info : TilingInfo} {sc i : Nat} : ∀ {w : WindowState},
    (w.group = WindowGroup.Stack → sc ≠ 0) → ∃ w', tileOne info sc i w = some w' := by
  intro w h
  cases w with
  | mk ww wf wx wy wwd wht wg =>
    cases wg <;> simp only [tileOne]
    · exact ⟨_, rfl⟩
    · rw [if_neg (h rfl)]
      exact ⟨_, rfl⟩
    · exact ⟨_, rfl⟩
    · exact ⟨_, rfl⟩

theorem tileList_isSome {info : TilingInfo} {sc : Nat} : ∀ {i : Nat} {ws : List WindowState},
    (∀ w ∈ ws, w.group = WindowGroup.Stack → sc ≠ 0) →
    ∃ ws', tileList info sc i ws = some ws' := by
  intro i ws
  induction ws generalizing i with
  | nil => exact fun _ => ⟨[], rfl⟩
  | cons w rest ih =>
    intro h
    obtain ⟨w', hw'⟩ := @tileOne_isSome info sc i w
      (h w (List.mem_cons_self w rest))
    obtain ⟨rest', hrest'⟩ := ih (i := i + 1) fun v hv => h v (List.mem_cons_of_mem w hv)
    exact ⟨w' :: rest', by unfold tileList; rw [hw', hrest']⟩

theorem tileList_get?_eq {info : TilingInfo} {sc : Nat} : ∀ {i : Nat} {ws ws' : List WindowState},
    tileList info sc i ws = some ws' →
    ∀ k, ws'.get? k = (ws.get? k).bind (tileOne info sc (i + k)) := by
  intro i ws
  induction ws generalizing i with
  | nil =>
    intro ws' h k
    cases h
    rfl
  | cons w rest ih =>
    intro ws' h k
    unfold tileList at h
    cases h1 : tileOne info sc i w <;> rw [h1] at h
    · exact Option.noConfusion h
    · rename_i w0
      cases h2 : tileList info sc (i + 1) rest <;> rw [h2] at h
      · exact Option.noConfusion h
      · rename_i rest2
        cases h
        cases k with
        | zero => simp [h1]
        | succ k =>
          show rest2.get? k = (rest.get? k).bind (tileOne info sc (i + (k + 1)))
          rw [show i + (k + 1) = (i + 1) + k by omega]
          exact ih h2 k

/-- C1 counterexample: in the spec scenario (1920x1080, gap 10, bar 18,
ratio 0.5, windows A,B,C) the Master window C ends at width 940
(`1920·0.5 − 2·10`), not the claimed 1890; A and B match the claim. -/
theorem C1_counterexample :
    (refresh c1State).map geomOfActive =
      some [(1, 960, 28, 950, 502), (2, 960, 540, 950, 530), (3, 10, 28, 940, 1042)] ∧
    ¬ (refresh c1State).map geomOfActive =
      some [(1, 960, 28, 950, 502), (2, 960, 540, 950, 530), (3, 10, 28, 1890, 1042)] :=
  ⟨by decide, by decide⟩

/-- C1 (amended): in the spec scenario, after `refresh()` window C is the
Master at (10, 28, 940, 1042), window A is the Stack window at index 0 at
(960, 28, 950, 502) and window B is the Stack window at index 1 at
(960, 540, 950, 530). -/
theorem C1_amended :
    (refresh c1State).map geomOfActive =
      some [(1, 960, 28, 950, 502), (2, 960, 540, 950, 530), (3, 10, 28, 940, 1042)] ∧
    (refresh c1State).map groupsOfActive =
      some [WindowGroup.Stack, WindowGroup.Stack, WindowGroup.Master] := by
  decide

/-- C2 (code bug): on a tag whose windows are A(Stack) then B(Floating),
`refresh()` leaves the groups `[Stack, Floating]` — no window at all has
group `Master`, although A is the last window that is neither Floating nor
Fullscreen.  `set_last_master_others_stack` only promotes the very last
window and returns early when that one is Floating/Fullscreen,
contradicting its own doc comment ("sets the last non floating window to
`Master`"). -/
theorem C2_code_bug_eval :
    (refresh c2State).map groupsOfActive = some [WindowGroup.Stack, WindowGroup.Floating] ∧
    WindowGroup.Master ∉ [WindowGroup.Stack, WindowGroup.Floating] := by
  decide

/-- C3 counterexample: on a tag [Stack, Floating, Master] the code divides
by `len.clamp(1,100) − 1 = 2`, not by the Stack-window count 1: the Stack
window's height comes out 502, while the claim's formula with
N = max(#Stack, 1) = 1 gives 1042. -/
theorem C3_counterexample :
    (tile_windows c3State).map heightsOfActive = some [502, 100, 1042] ∧
    specStackDivisor (activeTag c3State).windows = 1 ∧
    specStackHeight info1920 (specStackDivisor (activeTag c3State).windows) 0 = 1042 ∧
    (502 : Nat) ≠ 1042 := by
  decide

/-- C4 counterexample: map window 1, move it to tag 1, then handle a second
map request for window 1: the duplicate check searches only the active tag,
so id 1 ends up in tag 0 and in tag 1 at once. -/
theorem C4_counterexample :
    (steps (StateHandler.new info1920) c4Events).map (fun s => (IdsAt s 0, IdsAt s 1)) =
      some ([1], [1]) := by
  decide

/-- C5 counterexample: on a tag holding a single window of group `Stack`,
`stack_count = len.clamp(1,100) − 1 = 0` and the Stack arm divides
`max_height` by zero: `tile_windows` panics instead of being total. -/
theorem C5_counterexample : tile_windows c5State = none := by decide

/-- C9 counterexample: on a 3-window tag focused at window 1, the third
call of `switch_focus_next(1)` already returns the focus to the starting
id; the fourth call yields window 2, not the starting id as claimed. -/
theorem C9_counterexample :
    (switchIter 3 c9State).bind get_focus = some 1 ∧
    (switchIter 4 c9State).bind get_focus = some 2 ∧
    ¬ (switchIter 4 c9State).bind get_focus = some 1 := by
  decide

/-- C10: `refresh()` only rewrites the group and geometry of the active
tag's windows: it keeps the active-tag index, the tiling parameters, the
tag count, every non-active tag verbatim, every tag's focus, and the
active tag's window count and window/frame id sequence (hence order). -/
theorem C10_refresh_frame (s s' : StateHandler) (h : refresh s = some s') :
    s'.active_tag = s.active_tag ∧
    s'.tiling = s.tiling ∧
    s'.tags.length = s.tags.length ∧
    (∀ i, i ≠ s.active_tag → s'.tags.getD i (Tag.new 0) = s.tags.getD i (Tag.new 0)) ∧
    (∀ i, (s'.tags.getD i (Tag.new 0)).focus = (s.tags.getD i (Tag.new 0)).focus) ∧
    (activeTag s').windows.length = (activeTag s).windows.length ∧
    (activeTag s').windows.map WindowState.window =
      (activeTag s).windows.map WindowState.window ∧
    (activeTag s').windows.map WindowState.frame_window =
      (activeTag s).windows.map WindowState.frame_window := by
  have hs := refresh_skel h
  obtain ⟨hfo, hw, hfr⟩ := skel_activeTag hs
  obtain ⟨a, t, l, ne, fo, _, _, _⟩ := hs
  refine ⟨a, t, l, fun i hi => ne i _ hi, fun i => fo i _, ?_, hw, hfr⟩
  have := congrArg List.length hw
  simpa using this

/-- C10 witness: the frame conditions hold for the concrete scenario
state. -/
theorem C10_witness :
    ((refresh c1State).getD c1State).active_tag = c1State.active_tag :=
  (C10_refresh_frame c1State ((refresh c1State).getD c1State) (by decide)).1

/-- C7: a configure request for a tracked window is always forwarded
(acknowledged); a `Floating` window adopts the requested x/y/width/height
verbatim, while a window in any other group keeps the whole state
unchanged. -/
theorem C7_configure_request (s : StateHandler) (id : Nat) (x y : Int)
    (width height : Nat) (wst : WindowState)
    (h : get_window_state s id = some wst) :
    (handle_config s id x y width height).2 = true ∧
    (wst.group = WindowGroup.Floating →
      get_window_state (handle_config s id x y width height).1 id =
        some { wst with x := x, y := y, width := width, height := height }) ∧
    (wst.group ≠ WindowGroup.Floating →
      (handle_config s id x y width height).1 = s) := by
  have hin : s.active_tag < s.tags.length := get_window_state_in_range h
  have hcfg : handle_config s id x y width height =
      (modifyActive s fun t =>
        { t with windows :=
            updateFirst (winMatch id) (adoptIfFloating x y width height) t.windows },
       true) := by
    unfold handle_config
    rw [h]
  rw [hcfg]
  refine ⟨rfl, ?_, ?_⟩
  · intro hfl
    show get_window_state (modifyActive s _) id = _
    unfold get_window_state
    rw [activeTag_modifyActive s _ hin]
    show List.find? (winMatch id)
      (updateFirst (winMatch id) (adoptIfFloating x y width height) (activeTag s).windows) = _
    rw [find?_updateFirst (fun w hw => by rw [winMatch_adopt]; exact hw)]
    rw [show List.find? (winMatch id) (activeTag s).windows = some wst from h]
    show some (adoptIfFloating x y width height wst) = _
    unfold adoptIfFloating
    rw [if_pos hfl]
  · intro hfl
    show (modifyActive s fun t =>
      { t with windows :=
          updateFirst (winMatch id) (adoptIfFloating x y width height) t.windows }) = s
    refine modifyActive_id s _ ?_
    show { activeTag s with
      windows := updateFirst (winMatch id) (adoptIfFloating x y width height)
        (activeTag s).windows } = activeTag s
    rw [updateFirst_eq_self]
    · intro w hw
      rw [show w = wst from Option.some.inj ((h.symm.trans hw).symm)]
      unfold adoptIfFloating
      rw [if_neg hfl]

/-- C7 witness: the configure request for the tracked Floating window 2 of
the two-window fixture is forwarded. -/
theorem C7_witness : (handle_config c2State 2 5 6 300 200).2 = true :=
  (C7_configure_request c2State 2 5 6 300 200
    ⟨2, 102, 0, 0, 100, 100, WindowGroup.Floating⟩ (by decide)).1

/-- C5 (amended): `tile_windows` cannot fail provided every tag that holds
a `Stack`-group window holds at least two windows (true of every tag
`refresh`'s group assignment produces, where a sole candidate becomes
`Master`); on an empty tag it returns the state unchanged.  On a tag whose
single window has group `Stack` it divides by zero (see the
counterexample). -/
theorem C5_total_amended :
    (∀ s : StateHandler,
      ((∃ w ∈ (activeTag s).windows, w.group = WindowGroup.Stack) →
        2 ≤ (activeTag s).windows.length) →
      ∃ s', tile_windows s = some s') ∧
    (∀ s : StateHandler, (activeTag s).windows = [] → tile_windows s = some s) := by
  constructor
  · intro s hs
    have hsc : ∀ w ∈ (activeTag s).windows, w.group = WindowGroup.Stack →
        stackCountOf (activeTag s).windows.length ≠ 0 := by
      intro w hw hg
      have h2 := hs ⟨w, hw, hg⟩
      have hmax : 2 ≤ max (activeTag s).windows.length 1 := le_trans h2 (Nat.le_max_left _ _)
      have hmin : 2 ≤ min (max (activeTag s).windows.length 1) 100 :=
        le_min hmax (by omega)
      unfold stackCountOf
      omega
    obtain ⟨ws', hws'⟩ := @tileList_isSome s.tiling _ 0 _ hsc
    refine ⟨modifyActive s fun t => { t with windows := ws' }, ?_⟩
    unfold tile_windows
    rw [hws']
    rfl
  · intro s h
    unfold tile_windows
    rw [h]
    show some (modifyActive s fun t => { t with windows := ([] : List WindowState) }) = some s
    rw [modifyActive_id s _ (by rw [← h])]

/-- C5 witness: on the empty-tag fixture, tiling returns the state
unchanged. -/
theorem C5_witness : tile_windows emptyState = some emptyState :=
  C5_total_amended.2 emptyState rfl

/-- C3 (amended): the divisor the code uses is
`len.clamp(1, 100) − 1`, and the index in the Stack formulas is the
window's position in the full window list.  For a group-assigned tag of at
most 100 windows with no Floating/Fullscreen windows — Stack windows
followed by the final Master — the divisor equals the count of Stack
windows (floored to 1) and each Stack window's full-list index equals its
index among the Stack windows, so the claimed formulas hold there. -/
theorem C3_stack_divisor_amended (s s' : StateHandler) (stks : List WindowState)
    (m : WindowState) (h : tile_windows s = some s')
    (hws : (activeTag s).windows = stks ++ [m])
    (hst : ∀ w ∈ stks, w.group = WindowGroup.Stack)
    (hm : m.group = WindowGroup.Master)
    (hne : stks ≠ []) (hlen : (activeTag s).windows.length ≤ 100) :
    stackCountOf (activeTag s).windows.length =
      max ((activeTag s).windows.countP (fun w => w.group == WindowGroup.Stack)) 1 ∧
    (activeTag s).windows.countP (fun w => w.group == WindowGroup.Stack) = stks.length ∧
    ∀ k, k < stks.length →
      (activeTag s').windows.get? k = ((activeTag s).windows.get? k).bind
        (tileOne s.tiling
          (max ((activeTag s).windows.countP (fun w => w.group == WindowGroup.Stack)) 1) k) := by
  have hpos : 1 ≤ stks.length := List.length_pos.mpr hne
  have hcount : (activeTag s).windows.countP (fun w => w.group == WindowGroup.Stack) =
      stks.length := by
    rw [hws, List.countP_append]
    have h1 : stks.countP (fun w => w.group == WindowGroup.Stack) = stks.length :=
      List.countP_eq_length.mpr fun w hw => by simp [hst w hw]
    have h2 : [m].countP (fun w => w.group == WindowGroup.Stack) = 0 := by
      simp [List.countP_cons, hm]
    rw [h1, h2]
    omega
  have hlen2 : (activeTag s).windows.length = stks.length + 1 := by
    rw [hws]
    simp
  have hsc : stackCountOf (activeTag s).windows.length = stks.length := by
    unfold stackCountOf
    rw [hlen2]
    have hmax : max (stks.length + 1) 1 = stks.length + 1 := Nat.max_eq_left (by omega)
    have hmin : min (stks.length + 1) 100 = stks.length + 1 :=
      Nat.min_eq_left (by omega)
    rw [hmax, hmin]
    omega
  have hmaxc : max ((activeTag s).windows.countP (fun w => w.group == WindowGroup.Stack)) 1 =
      stks.length := by
    rw [hcount]
    exact Nat.max_eq_left hpos
  refine ⟨by rw [hsc, hmaxc], hcount, ?_⟩
  intro k hk
  obtain ⟨ws', hl, rfl⟩ := tile_windows_eq h
  have hinr : s.active_tag < s.tags.length := by
    by_contra hlt
    have hdef : activeTag s = Tag.new 0 := getD_oob _ _ (Nat.le_of_not_lt hlt)
    have hnil : ([] : List WindowState) = stks ++ [m] := by
      rw [← hws, hdef]
      rfl
    exact absurd hnil.symm (by simp)
  have hact : activeTag (modifyActive s fun t => { t with windows := ws' }) =
      { activeTag s with windows := ws' } := activeTag_modifyActive s _ hinr
  rw [hact]
  show ws'.get? k = _
  rw [tileList_get?_eq hl k, Nat.zero_add, hsc, hmaxc]

/-- C3 witness: the amended divisor/index facts hold on the concrete
group-assigned three-window tag. -/
theorem C3_witness :
    stackCountOf (activeTag c3GoodState).windows.length =
      max ((activeTag c3GoodState).windows.countP
        (fun w => w.group == WindowGroup.Stack)) 1 :=
  (C3_stack_divisor_amended c3GoodState ((tile_windows c3GoodState).getD c3GoodState)
    [⟨1, 101, 0, 0, 100, 100, WindowGroup.Stack⟩, ⟨2, 102, 0, 0, 100, 100, WindowGroup.Stack⟩]
    ⟨3, 103, 0, 0, 100, 100, WindowGroup.Master⟩
    (by decide) rfl (by decide) rfl (by decide) (by decide)).1

theorem findIdx?_spec {α : Type _} {p : α → Bool} :
    ∀ (l : List α) (j base : Nat) (w : α),
    (∀ k, k < j → ∀ v, l.get? k = some v → p v = false) →
    l.get? j = some w → p w = true →
    List.findIdx? p l base = some (base + j) := by
  intro l
  induction l with
  | nil =>
    intro j base w _ hj _
    exact Option.noConfusion hj
  | cons x xs ih =>
    intro j base w hlt hj hp
    cases j with
    | zero =>
      have hx : x = w := Option.some.inj hj
      rw [List.findIdx?_cons, hx, hp]
      simp
    | succ j =>
      have h0 : p x = false := hlt 0 (Nat.succ_pos j) x rfl
      rw [List.findIdx?_cons, h0]
      simp only [Bool.false_eq_true, if_false]
      rw [show base + (j + 1) = (base + 1) + j by omega]
      exact ih j (base + 1) w (fun k hk v hv => hlt (k + 1) (by omega) v hv) hj hp

theorem nodup_get?_window_ne {ws : List WindowState}
    (hnd : (ws.map WindowState.window).Nodup) {k k' : Nat} (hkk : k ≠ k')
    {w w' : WindowState} (hk : ws.get? k = some w) (hk' : ws.get? k' = some w') :
    w.window ≠ w'.window := by
  intro heq
  obtain ⟨hkl, hgk⟩ := List.get?_eq_some.mp hk
  obtain ⟨hkl', hgk'⟩ := List.get?_eq_some.mp hk'
  have hkm : k < (ws.map WindowState.window).length := by simpa using hkl
  have hkm' : k' < (ws.map WindowState.window).length := by simpa using hkl'
  have hmapk : (ws.map WindowState.window).get ⟨k, hkm⟩ = w.window := by
    rw [List.get_map, hgk]
  have hmapk' : (ws.map WindowState.window).get ⟨k', hkm'⟩ = w'.window := by
    rw [List.get_map, hgk']
  have h2 : (⟨k, hkm⟩ : Fin (ws.map WindowState.window).length) = ⟨k', hkm'⟩ :=
    hnd.get_inj_iff.mp (by rw [hmapk, hmapk', heq])
  exact hkk (by simpa using h2)

theorem winMatch_false {id : Nat} {w : WindowState} (h1 : w.window ≠ id)
    (h2 : w.frame_window ≠ id) : winMatch id w = false := by
  simp [winMatch, h1, h2]

theorem winMatch_true {id : Nat} {w : WindowState} (h : w.window = id) :
    winMatch id w = true := by
  simp [winMatch, h]

theorem get_index_spec {s : StateHandler} {j : Nat} {wj : WindowState}
    (hnd : ((activeTag s).windows.map WindowState.window).Nodup)
    (hfr : ∀ w1 ∈ (activeTag s).windows, ∀ w2 ∈ (activeTag s).windows,
      w1.frame_window ≠ w2.window)
    (hj : (activeTag s).windows.get? j = some wj) :
    get_index_of_window s wj.window = some j := by
  unfold get_index_of_window
  have hspec := findIdx?_spec (p := winMatch wj.window) (activeTag s).windows j 0 wj
    (fun k hk v hv => winMatch_false
      (nodup_get?_window_ne hnd (Nat.ne_of_lt hk) hv hj)
      (hfr v (List.get?_mem hv) wj (List.get?_mem hj)))
    hj (winMatch_true rfl)
  simpa using hspec

theorem set_get?_self {α : Type _} (l : List α) (i : Nat) (a : α)
    (h : l.get? i = some a) : l.set i a = l := by
  have hd : l.getD i a = a := by
    rw [List.getD_eq_getElem?_getD, ← List.get?_eq_getElem?, h]
    rfl
  calc l.set i a = l.set i (l.getD i a) := by rw [hd]
    _ = l := set_getD_same l i a

theorem listSwap_self (l : List WindowState) (i : Nat) : listSwap l i i = l := by
  unfold listSwap
  cases h : l.get? i with
  | none => rfl
  | some a =>
    show (l.set i a).set i a = l
    rw [List.set_set]
    exact set_get?_self l i _ h

/-- C8: `swap_master()` on a tag with pairwise-distinct window ids whose
frame ids collide with no window id: a missing focus changes nothing; a
focused window that is not in the last position is exchanged with the
last-position window and nothing else changes; a focused last-position
window of a tag of two or more windows is exchanged with the
second-to-last window; with exactly one window the state is unchanged. -/
theorem C8_swap_master (s : StateHandler)
    (hnd : ((activeTag s).windows.map WindowState.window).Nodup)
    (hfr : ∀ w1 ∈ (activeTag s).windows, ∀ w2 ∈ (activeTag s).windows,
      w1.frame_window ≠ w2.window) :
    ((activeTag s).focus = none → swap_master s = some s) ∧
    (∀ f j wj, (activeTag s).focus = some f →
      (activeTag s).windows.get? j = some wj → wj.window = f →
      ((j ≠ (activeTag s).windows.length - 1 →
        swap_master s = some (modifyActive s fun t =>
          { t with windows := listSwap t.windows j ((activeTag s).windows.length - 1) })) ∧
       (j = (activeTag s).windows.length - 1 → 2 ≤ (activeTag s).windows.length →
        swap_master s = some (modifyActive s fun t =>
          { t with windows := (listSwap t.windows ((activeTag s).windows.length - 1)
              ((activeTag s).windows.length - 2)) })) ∧
       ((activeTag s).windows.length = 1 → swap_master s = some s))) := by
  constructor
  · intro hfo
    unfold swap_master
    rw [hfo]
  · intro f j wj hfo hj hwf
    have hjlen : j < (activeTag s).windows.length := (List.get?_eq_some.mp hj).1
    have hlast : (activeTag s).windows.get? ((activeTag s).windows.length - 1) =
        some ((activeTag s).windows.get ⟨(activeTag s).windows.length - 1, by omega⟩) :=
      List.get?_eq_get (by omega)
    set wlast := (activeTag s).windows.get ⟨(activeTag s).windows.length - 1, by omega⟩
      with hwl
    have hGL : (activeTag s).windows.getLast? = some wlast := by
      rw [List.getLast?_eq_getElem?, ← List.get?_eq_getElem?]
      exact hlast
    refine ⟨?_, ?_, ?_⟩
    · intro hne
      have hmne : wlast.window ≠ f := by
        rw [← hwf]
        exact nodup_get?_window_ne hnd (fun hh => hne hh.symm) hlast hj
      have hcond : ¬ (wlast.window = f ∧ 1 < (activeTag s).windows.length) :=
        fun hc => hmne hc.1
      have hidxf : get_index_of_window s f = some j := hwf ▸ get_index_spec hnd hfr hj
      have hidxm : get_index_of_window s wlast.window =
          some ((activeTag s).windows.length - 1) := get_index_spec hnd hfr hlast
      simp only [swap_master, hfo, hGL, if_neg hcond, hidxf, hidxm]
    · intro heq h2
      have hwjl : wj = wlast := by
        apply Option.some.inj
        rw [← hj, ← hlast, heq]
      have hcond : wlast.window = f ∧ 1 < (activeTag s).windows.length :=
        ⟨by rw [← hwjl, hwf], by omega⟩
      have hlast2 : (activeTag s).windows.get? ((activeTag s).windows.length - 2) =
          some ((activeTag s).windows.get ⟨(activeTag s).windows.length - 2, by omega⟩) :=
        List.get?_eq_get (by omega)
      set w2 := (activeTag s).windows.get ⟨(activeTag s).windows.length - 2, by omega⟩
        with hw2
      have hidxf : get_index_of_window s f = some ((activeTag s).windows.length - 1) := by
        rw [← hwf, hwjl]
        exact get_index_spec hnd hfr hlast
      have hidxm : get_index_of_window s w2.window =
          some ((activeTag s).windows.length - 2) := get_index_spec hnd hfr hlast2
      simp only [swap_master, hfo, hGL, if_pos hcond, hlast2, hidxf, hidxm]
    · intro h1
      have hj0 : j = 0 := by omega
      have hwjl : wj = wlast := by
        apply Option.some.inj
        rw [← hj, ← hlast, hj0, h1]
      have hcond : ¬ (wlast.window = f ∧ 1 < (activeTag s).windows.length) :=
        fun hc => by omega
      have hidxf : get_index_of_window s f = some 0 := by
        rw [← hwf]
        exact hj0 ▸ get_index_spec hnd hfr hj
      have hidxm : get_index_of_window s wlast.window = some 0 := by
        rw [← hwjl, hwf]
        exact hidxf
      have hswap : (modifyActive s fun t =>
          { t with windows := listSwap t.windows 0 0 }) = s := by
        refine modifyActive_id s _ ?_
        rw [listSwap_self]
      simp only [swap_master, hfo, hGL, if_neg hcond, hidxf, hidxm]
      rw [hswap]

/-- C8 witness: on the concrete three-window scenario tag (focus window 3,
at the last position, three windows) `swap_master` exchanges the last and
second-to-last windows. -/
theorem C8_witness :
    swap_master c1State = some (modifyActive c1State fun t =>
      { t with windows := (listSwap t.windows ((activeTag c1State).windows.length - 1)
          ((activeTag c1State).windows.length - 2)) }) :=
  ((C8_swap_master c1State (by decide) (by decide)).2 3 2 (WindowState.new 3 103)
    (by decide) (by decide) (by decide)).2.1 (by decide) (by decide)

theorem toI16_eq_self {n : Int} (h1 : -32768 ≤ n) (h2 : n ≤ 32767) : toI16 n = n := by
  unfold toI16
  omega

theorem switch_focus_next_shift (s : StateHandler) (c : Int) (f : Nat) (j : Nat)
    (w : WindowState)
    (hfo : (activeTag s).focus = some f)
    (hidx : (activeTag s).windows.findIdx? (fun w => w.window == f) = some j)
    (hlen : (activeTag s).windows.length ≤ 32767)
    (hc1 : -32768 ≤ c) (hc2 : c ≤ 32767)
    (hr1 : -32768 ≤ (j : Int) + c) (hr2 : (j : Int) + c ≤ 32767)
    (hjl : j < (activeTag s).windows.length)
    (hw : (activeTag s).windows.get?
      (((j : Int) + c) % ((activeTag s).windows.length : Int)).toNat = some w) :
    switch_focus_next s c = some (modifyActive s fun t => { t with focus := some w.window }) := by
  have h1 : toI16 (j : Int) = (j : Int) := toI16_eq_self (by omega) (by omega)
  have h2 : toI16 c = c := toI16_eq_self hc1 hc2
  have h3 : toI16 ((j : Int) + c) = (j : Int) + c := toI16_eq_self hr1 hr2
  have h4 : toI16 ((activeTag s).windows.length : Int) =
      ((activeTag s).windows.length : Int) := toI16_eq_self (by omega) (by omega)
  have hlen0 : ¬ (((activeTag s).windows.length : Int) = 0) := by omega
  have hcond2 : ¬ ((j : Int) + c = -32768 ∧ ((activeTag s).windows.length : Int) = -1) :=
    fun hc => by omega
  simp only [switch_focus_next, hfo, hidx, h1, h2, h3, h4]
  rw [if_neg hlen0, if_neg hcond2, hw]

/-- C9 (amended): `switch_focus_next(delta)` is a cyclic shift of the focus
by `delta` positions over the active tag's window order (Euclidean
remainder), and a no-op without a focus or on an empty tag; on a 3-window
tag, three successive `switch_focus_next(1)` calls set the focus to each of
the three window ids exactly once, with the THIRD call (not the fourth, as
claimed) returning the focus to the starting id; the fourth call repeats
the first call's focus. -/
theorem C9_switch_focus_amended :
    (∀ (s : StateHandler) (c : Int), (activeTag s).focus = none →
      switch_focus_next s c = some s) ∧
    (∀ (s : StateHandler) (c : Int), (activeTag s).windows = [] →
      switch_focus_next s c = some s) ∧
    (∀ (s : StateHandler) (c : Int) (f : Nat) (j : Nat) (w : WindowState),
      (activeTag s).focus = some f →
      (activeTag s).windows.findIdx? (fun w => w.window == f) = some j →
      (activeTag s).windows.length ≤ 32767 →
      -32768 ≤ c → c ≤ 32767 →
      -32768 ≤ (j : Int) + c → (j : Int) + c ≤ 32767 →
      j < (activeTag s).windows.length →
      (activeTag s).windows.get?
        (((j : Int) + c) % ((activeTag s).windows.length : Int)).toNat = some w →
      switch_focus_next s c =
        some (modifyActive s fun t => { t with focus := some w.window })) ∧
    (∀ (s : StateHandler) (a b c3 : WindowState) (j : Nat), j < 3 →
      (activeTag s).windows = [a, b, c3] →
      a.window ≠ b.window → a.window ≠ c3.window → b.window ≠ c3.window →
      (activeTag s).focus = some (([a, b, c3].getD j a).window) →
      ((switchIter 1 s).bind get_focus = some (([a, b, c3].getD ((j + 1) % 3) a).window) ∧
       (switchIter 2 s).bind get_focus = some (([a, b, c3].getD ((j + 2) % 3) a).window) ∧
       (switchIter 3 s).bind get_focus = some (([a, b, c3].getD j a).window) ∧
       (switchIter 4 s).bind get_focus = some (([a, b, c3].getD ((j + 1) % 3) a).window) ∧
       ([([a, b, c3].getD ((j + 1) % 3) a).window, ([a, b, c3].getD ((j + 2) % 3) a).window,
         ([a, b, c3].getD j a).window]).Perm [a.window, b.window, c3.window])) := by
  refine ⟨?_, ?_, ?_, ?_⟩
  · intro s c hfo
    unfold switch_focus_next
    rw [hfo]
  · intro s c hws
    unfold switch_focus_next
    cases hfo : (activeTag s).focus with
    | none => rfl
    | some f =>
      rw [hws]
      rfl
  · intro s c f j w hfo hidx hlen hc1 hc2 hr1 hr2 hjl hw
    exact switch_focus_next_shift s c f j w hfo hidx hlen hc1 hc2 hr1 hr2 hjl hw
  · intro s a b c3 j hj hws hab hac hbc hfo
    have hinr : s.active_tag < s.tags.length := by
      by_contra hlt
      have hdef : activeTag s = Tag.new 0 := getD_oob _ _ (Nat.le_of_not_lt hlt)
      rw [hdef] at hws
      exact List.noConfusion hws
    have hstep : ∀ (s' : StateHandler) (k : Nat), k < 3 →
        s'.active_tag < s'.tags.length →
        (activeTag s').windows = [a, b, c3] →
        (activeTag s').focus = some (([a, b, c3].getD k a).window) →
        switch_focus_next s' 1 = some (modifyActive s' fun t =>
          { t with focus := some (([a, b, c3].getD ((k + 1) % 3) a).window) }) := by
      intro s' k hk hinr' hws' hfo'
      have hidx' : (activeTag s').windows.findIdx?
          (fun w => w.window == ([a, b, c3].getD k a).window) = some k := by
        rw [hws']
        interval_cases k <;>
          simp [List.findIdx?_cons, hab, hac, hbc, hab.symm, hac.symm, hbc.symm]
      have hw' : (activeTag s').windows.get?
          (((k : Int) + 1) % (((activeTag s').windows.length : Nat) : Int)).toNat =
          some ([a, b, c3].getD ((k + 1) % 3) a) := by
        rw [hws']
        interval_cases k <;> norm_num <;> rfl
      exact switch_focus_next_shift s' 1 _ k _ hfo' hidx'
        (by rw [hws']; norm_num) (by norm_num) (by norm_num)
        (by omega) (by omega) (by rw [hws']; simpa using hk) hw'
    have hact : ∀ (s' : StateHandler) (fo : Option Nat), s'.active_tag < s'.tags.length →
        activeTag (modifyActive s' fun t => { t with focus := fo }) =
          { activeTag s' with focus := fo } :=
      fun s' fo h => activeTag_modifyActive s' _ h
    have hmod : ∀ (s' : StateHandler) (fo : Option Nat),
        (modifyActive s' fun t => { t with focus := fo }).active_tag <
          (modifyActive s' fun t => { t with focus := fo }).tags.length ↔
          s'.active_tag < s'.tags.length := by
      intro s' fo
      rw [modifyActive_active_tag, modifyActive_tags_length]
    have h1 := hstep s j hj hinr hws hfo
    set s1 := modifyActive s fun t => { t with focus := some (([a, b, c3].getD ((j + 1) % 3) a).window) } with hs1
    have hinr1 : s1.active_tag < s1.tags.length := by
      rw [hs1, modifyActive_active_tag, modifyActive_tags_length]
      exact hinr
    have hws1 : (activeTag s1).windows = [a, b, c3] := by
      rw [hs1, hact s _ hinr]
      exact hws
    have hfo1 : (activeTag s1).focus = some (([a, b, c3].getD ((j + 1) % 3) a).window) := by
      rw [hs1, hact s _ hinr]
    have h2 := hstep s1 ((j + 1) % 3) (by omega) hinr1 hws1 hfo1
    rw [show ((j + 1) % 3 + 1) % 3 = (j + 2) % 3 by omega] at h2
    set s2 := modifyActive s1 fun t => { t with focus := some (([a, b, c3].getD ((j + 2) % 3) a).window) } with hs2
    have hinr2 : s2.active_tag < s2.tags.length := by
      rw [hs2, modifyActive_active_tag, modifyActive_tags_length]
      exact hinr1
    have hws2 : (activeTag s2).windows = [a, b, c3] := by
      rw [hs2, hact s1 _ hinr1]
      exact hws1
    have hfo2 : (activeTag s2).focus = some (([a, b, c3].getD ((j + 2) % 3) a).window) := by
      rw [hs2, hact s1 _ hinr1]
    have h3 := hstep s2 ((j + 2) % 3) (by omega) hinr2 hws2 hfo2
    rw [show ((j + 2) % 3 + 1) % 3 = j % 3 by omega, show j % 3 = j by omega] at h3
    set s3 := modifyActive s2 fun t => { t with focus := some (([a, b, c3].getD j a).window) } with hs3
    have hinr3 : s3.active_tag < s3.tags.length := by
      rw [hs3, modifyActive_active_tag, modifyActive_tags_length]
      exact hinr2
    have hws3 : (activeTag s3).windows = [a, b, c3] := by
      rw [hs3, hact s2 _ hinr2]
      exact hws2
    have hfo3 : (activeTag s3).focus = some (([a, b, c3].getD j a).window) := by
      rw [hs3, hact s2 _ hinr2]
    have h4 := hstep s3 j hj hinr3 hws3 hfo3
    set s4 := modifyActive s3 fun t => { t with focus := some (([a, b, c3].getD ((j + 1) % 3) a).window) } with hs4
    have hfo4 : (activeTag s4).focus = some (([a, b, c3].getD ((j + 1) % 3) a).window) := by
      rw [hs4, hact s3 _ hinr3]
    refine ⟨?_, ?_, ?_, ?_, ?_⟩
    · show ((switch_focus_next s 1).bind (switchIter 0)).bind get_focus = _
      rw [h1]
      show get_focus s1 = _
      exact hfo1
    · show ((switch_focus_next s 1).bind (switchIter 1)).bind get_focus = _
      rw [h1]
      show ((switch_focus_next s1 1).bind (switchIter 0)).bind get_focus = _
      rw [h2]
      exact hfo2
    · show ((switch_focus_next s 1).bind (switchIter 2)).bind get_focus = _
      rw [h1]
      show ((switch_focus_next s1 1).bind (switchIter 1)).bind get_focus = _
      rw [h2]
      show ((switch_focus_next s2 1).bind (switchIter 0)).bind get_focus = _
      rw [h3]
      exact hfo3
    · show ((switch_focus_next s 1).bind (switchIter 3)).bind get_focus = _
      rw [h1]
      show ((switch_focus_next s1 1).bind (switchIter 2)).bind get_focus = _
      rw [h2]
      show ((switch_focus_next s2 1).bind (switchIter 1)).bind get_focus = _
      rw [h3]
      show ((switch_focus_next s3 1).bind (switchIter 0)).bind get_focus = _
      rw [h4]
      exact hfo4
    · interval_cases j
      · show ([b.window, c3.window, a.window]).Perm [a.window, b.window, c3.window]
        exact List.perm_append_singleton a.window [b.window, c3.window]
      · show ([c3.window, a.window, b.window]).Perm [a.window, b.window, c3.window]
        exact (List.perm_append_singleton c3.window [a.window, b.window]).symm
      · show ([a.window, b.window, c3.window]).Perm [a.window, b.window, c3.window]
        exact List.Perm.refl _

/-- C9 witness: on the concrete 3-window tag focused at window 1, the first
`switch_focus_next(1)` call moves the focus to window 2. -/
theorem C9_witness : (switchIter 1 c9State).bind get_focus = some 2 :=
  ((C9_switch_focus_amended.2.2.2 c9State (WindowState.new 1 101) (WindowState.new 2 102)
    (WindowState.new 3 103) 0 (by decide) (by decide) (by decide) (by decide) (by decide)
    (by decide)).1)

theorem tagOk_transfer {t t' : Tag} (hf : t'.focus = t.focus)
    (hw : t'.windows.map WindowState.window = t.windows.map WindowState.window)
    (h : tagOk t) : tagOk t' := by
  constructor
  · intro fid hfid
    rw [hw]
    exact h.1 fid (hf ▸ hfid)
  · intro hnil
    have : t.windows = [] := by
      have := congrArg (List.map WindowState.window) hnil
      rw [hw] at this
      exact List.map_eq_nil_iff.mp this
    rw [hf]
    exact h.2 this

theorem focusInv_of_skel {s s' : StateHandler} (hs : Skel s s')
    (h : FocusInvariant s) : FocusInvariant s' := by
  obtain ⟨hl, ha, hok⟩ := h
  obtain ⟨a, _, l, _, fo, _, w, _⟩ := hs
  refine ⟨l.trans hl, a ▸ ha, ?_⟩
  intro i hi
  exact tagOk_transfer (fo i _) (w i _) (hok i hi)

theorem uniq_of_skel {s s' : StateHandler} (hs : Skel s s')
    (h : UniqueInvariant s) : UniqueInvariant s' := by
  obtain ⟨hl, ha, hnd, hdisj⟩ := h
  obtain ⟨a, _, l, _, _, _, w, _⟩ := hs
  have hids : ∀ i, IdsAt s' i = IdsAt s i := fun i => w i _
  refine ⟨l.trans hl, a ▸ ha, ?_, ?_⟩
  · intro i hi
    rw [hids]
    exact hnd i hi
  · intro i j hi hj hij x hx
    rw [hids] at hx ⊢
    exact hdisj i j hi hj hij x hx

theorem FocusInvariant.modify {s : StateHandler} (h : FocusInvariant s) (f : Tag → Tag)
    (hOk : tagOk (f (activeTag s))) : FocusInvariant (modifyActive s f) := by
  obtain ⟨hl, ha, hok⟩ := h
  refine ⟨(modifyActive_tags_length s f).trans hl, ha, ?_⟩
  intro i hi
  by_cases hia : i = s.active_tag
  · rw [hia]
    rw [show (modifyActive s f).tags = s.tags.set s.active_tag (f (activeTag s)) from rfl]
    rw [getD_set_same _ _ _ _ (show s.active_tag < s.tags.length by omega)]
    exact hOk
  · rw [modifyActive_getD_ne s f _ hia]
    exact hok i hi

theorem modifyActive_comp (s : StateHandler) (f g : Tag → Tag) :
    modifyActive (modifyActive s f) g = modifyActive s (fun t => g (f t)) := by
  by_cases hin : s.active_tag < s.tags.length
  · show { s with tags := _ } = { s with tags := _ }
    rw [show activeTag (modifyActive s f) = f (activeTag s) from
      activeTag_modifyActive s f hin]
    show { s with tags := ((s.tags.set s.active_tag (f (activeTag s))).set s.active_tag
      (g (f (activeTag s)))) } = _
    rw [List.set_set]
  · have hle := Nat.le_of_not_lt hin
    rw [modifyActive_oob s f hle, modifyActive_oob s g hle,
      modifyActive_oob s (fun t => g (f t)) hle]

theorem tagOk_focus_master (t : Tag) :
    tagOk { t with focus := t.windows.getLast?.map WindowState.window } := by
  constructor
  · intro fid hfid
    cases hl : t.windows.getLast? with
    | none =>
      rw [show ({ t with focus := t.windows.getLast?.map WindowState.window } : Tag).focus =
        (t.windows.getLast?.map WindowState.window) from rfl, hl] at hfid
      exact Option.noConfusion hfid
    | some w =>
      have hmem : w ∈ t.windows := List.mem_of_mem_getLast? (by rw [hl]; rfl)
      have : fid = w.window := by
        rw [show ({ t with focus := t.windows.getLast?.map WindowState.window } : Tag).focus =
          (t.windows.getLast?.map WindowState.window) from rfl, hl] at hfid
        exact (Option.some.inj hfid).symm
      rw [this]
      exact List.mem_map_of_mem WindowState.window hmem
  · intro hnil
    show t.windows.getLast?.map WindowState.window = none
    rw [show t.windows = ([] : List WindowState) from hnil]
    rfl

theorem cons_set_perm {α : Type _} : ∀ (xs : List α) (k : Nat) (x w : α),
    xs.get? k = some w → (w :: xs.set k x).Perm (x :: xs) := by
  intro xs
  induction xs with
  | nil =>
    intro k x w h
    exact Option.noConfusion h
  | cons y ys ih =>
    intro k x w h
    cases k with
    | zero =>
      rw [← Option.some.inj h]
      exact List.Perm.swap x y ys
    | succ k =>
      show (w :: y :: ys.set k x).Perm (x :: y :: ys)
      exact (List.Perm.swap y w _).trans
        ((List.Perm.cons y (ih k x w h)).trans (List.Perm.swap x y ys))

theorem listSwap_perm : ∀ (l : List WindowState) (i j : Nat), (listSwap l i j).Perm l := by
  intro l
  induction l with
  | nil => intro i j; exact List.Perm.refl _
  | cons x xs ih =>
    intro i j
    unfold listSwap
    cases hi : (x :: xs).get? i with
    | none => exact List.Perm.refl _
    | some a =>
      cases hj : (x :: xs).get? j with
      | none => exact List.Perm.refl _
      | some b =>
        show (((x :: xs).set i b).set j a).Perm (x :: xs)
        cases i with
        | zero =>
          cases j with
          | zero =>
            rw [List.set_set, set_get?_self _ _ _ hi]
          | succ j =>
            rw [← Option.some.inj hi]
            show (b :: xs.set j x).Perm (x :: xs)
            exact cons_set_perm xs j x b hj
        | succ i =>
          cases j with
          | zero =>
            rw [← Option.some.inj hj]
            show (a :: xs.set i x).Perm (x :: xs)
            exact cons_set_perm xs i x a hi
          | succ j =>
            show (x :: (xs.set i b).set j a).Perm (x :: xs)
            refine List.Perm.cons x ?_
            have := ih i j
            unfold listSwap at this
            rw [show (x :: xs).get? (i + 1) = xs.get? i from rfl] at hi
            rw [show (x :: xs).get? (j + 1) = xs.get? j from rfl] at hj
            rw [hi, hj] at this
            exact this

theorem swap_master_cases {s s' : StateHandler} (h : swap_master s = some s') :
    s' = s ∨ ∃ i j, s' = modifyActive s fun t => { t with windows := listSwap t.windows i j } := by
  unfold swap_master at h
  split at h
  · exact Or.inl (Option.some.inj h).symm
  · split at h
    · exact Option.noConfusion h
    · simp only [] at h
      split at h
      · exact Or.inr ⟨_, _, (Option.some.inj h).symm⟩
      · exact Or.inl (Option.some.inj h).symm

theorem switch_focus_next_cases {s s' : StateHandler} {c : Int}
    (h : switch_focus_next s c = some s') :
    s' = s ∨ ∃ w, w ∈ (activeTag s).windows ∧
      s' = modifyActive s fun t => { t with focus := some w.window } := by
  unfold switch_focus_next at h
  split at h
  · exact Or.inl (Option.some.inj h).symm
  · split at h
    · exact Or.inl (Option.some.inj h).symm
    · simp only [] at h
      split at h
      · exact Option.noConfusion h
      · split at h
        · exact Option.noConfusion h
        · split at h
          · exact Option.noConfusion h
          · rename_i w hget
            exact Or.inr ⟨w, List.get?_mem hget, (Option.some.inj h).symm⟩

theorem nextTagIndex_lt (a : Nat) (c : Int) : nextTagIndex a c < 9 := by
  unfold nextTagIndex
  have h1 : (0 : Int) ≤ toI16 ((a : Int) + toI16 c) % 9 :=
    Int.emod_nonneg _ (by omega)
  have h2 : toI16 ((a : Int) + toI16 c) % 9 < 9 :=
    Int.emod_lt_of_pos _ (by omega)
  omega

theorem tagOk_perm {t t' : Tag} (hf : t'.focus = t.focus)
    (hp : t'.windows.Perm t.windows) (h : tagOk t) : tagOk t' := by
  constructor
  · intro fid hfid
    exact ((hp.map WindowState.window).mem_iff).mpr (h.1 fid (hf ▸ hfid))
  · intro hnil
    rw [hf]
    exact h.2 ((hnil ▸ hp.symm : t.windows.Perm []).eq_nil)

theorem FocusInvariant.activeOk {s : StateHandler} (h : FocusInvariant s) :
    tagOk (activeTag s) :=
  h.2.2 s.active_tag h.2.1

theorem tagOk_setWindows {t : Tag} (ws : List WindowState)
    (hp : ws.Perm t.windows) (h : tagOk t) : tagOk { t with windows := ws } :=
  tagOk_perm (show ({ t with windows := ws } : Tag).focus = t.focus from rfl) hp h

theorem tagOk_setWindowsMap {t : Tag} (ws : List WindowState)
    (hw : ws.map WindowState.window = t.windows.map WindowState.window)
    (h : tagOk t) : tagOk { t with windows := ws } :=
  tagOk_transfer (show ({ t with windows := ws } : Tag).focus = t.focus from rfl) hw h

theorem focusInv_modify_then_master {s : StateHandler} (hInv : FocusInvariant s)
    (f : Tag → Tag) :
    FocusInvariant (set_tag_focus_to_master (modifyActive s f)) := by
  unfold set_tag_focus_to_master
  rw [modifyActive_comp]
  exact hInv.modify _ (tagOk_focus_master _)

theorem focusInv_change_tag {s : StateHandler} (hInv : FocusInvariant s) {n : Nat}
    (hn : n < 9) : FocusInvariant (change_active_tag s n) := by
  unfold change_active_tag
  split
  · exact hInv
  · exact ⟨hInv.1, hn, hInv.2.2⟩

theorem focusInv_move {s : StateHandler} (hInv : FocusInvariant s) (n : Nat)
    (hn : n < 9) (cf : Nat) : FocusInvariant (move_window s n cf) := by
  unfold move_window
  split
  · exact hInv
  · split
    · exact hInv
    · rename_i st hst
      have h1 : FocusInvariant { s with tags := (s.tags.set n
          { (s.tags.getD n (Tag.new 0)) with
            windows := (s.tags.getD n (Tag.new 0)).windows ++ [st] }) } := by
        obtain ⟨hl, ha, hok⟩ := hInv
        refine ⟨by simpa using hl, ha, ?_⟩
        intro i hi
        by_cases hin : i = n
        · rw [hin, getD_set_same _ _ _ _ (by omega)]
          obtain ⟨ho1, ho2⟩ := hok n hn
          constructor
          · intro fid hfid
            show fid ∈ ((s.tags.getD n (Tag.new 0)).windows ++ [st]).map WindowState.window
            rw [List.map_append]
            exact List.mem_append.mpr (Or.inl (ho1 fid hfid))
          · intro hnil
            exact absurd hnil (by simp)
        · rw [getD_set_ne _ _ _ (fun hh => hin hh.symm)]
          exact hok i hi
      exact focusInv_modify_then_master h1 _

theorem focusInv_step {s s' : StateHandler} {e : WMEvent} (hInv : FocusInvariant s)
    (h : step s e = some s') : FocusInvariant s' := by
  cases e with
  | mapRequest w f =>
    replace h : handle_map_request s w f = some s' := h
    unfold handle_map_request at h
    split at h
    · rw [← Option.some.inj h]
      exact hInv
    · refine focusInv_of_skel (refresh_skel h) (hInv.modify _ ?_)
      constructor
      · intro fid hfid
        show fid ∈ ((activeTag s).windows ++ [WindowState.new w f]).map WindowState.window
        rw [List.map_append]
        refine List.mem_append.mpr (Or.inr ?_)
        rw [← Option.some.inj hfid]
        exact List.mem_singleton.mpr rfl
      · intro hnil
        exact absurd hnil (by simp)
  | unmapNotify w =>
    replace h : handle_unmap_notify s w = some s' := h
    unfold handle_unmap_notify at h
    split at h
    · rw [← Option.some.inj h]
      exact hInv
    · exact focusInv_of_skel (refresh_skel h) (focusInv_modify_then_master hInv _)
  | keySwitchTag n =>
    replace h : refresh (change_active_tag s n) = some s' := h
    exact focusInv_of_skel (refresh_skel h) (focusInv_change_tag hInv n.isLt)
  | keyMoveWindow n cf =>
    replace h : refresh (move_window s n cf) = some s' := h
    exact focusInv_of_skel (refresh_skel h) (focusInv_move hInv n n.isLt cf)
  | keySpawn =>
    replace h : refresh s = some s' := h
    exact focusInv_of_skel (refresh_skel h) hInv
  | keyExitFocused =>
    replace h : (if (get_focus s).isSome then refresh s else some s) = some s' := h
    split at h
    · exact focusInv_of_skel (refresh_skel h) hInv
    · rw [← Option.some.inj h]
      exact hInv
  | keyChangeRatio d =>
    replace h : refresh { s with tiling :=
        { s.tiling with ratio := clampRatio (s.tiling.ratio + d) } } = some s' := h
    exact focusInv_of_skel (refresh_skel h) ⟨hInv.1, hInv.2.1, hInv.2.2⟩
  | keyNextFocus c =>
    replace h : (switch_focus_next s c).bind refresh = some s' := h
    obtain ⟨s1, hs1, hr⟩ := Option.bind_eq_some.mp h
    refine focusInv_of_skel (refresh_skel hr) ?_
    rcases switch_focus_next_cases hs1 with heq | ⟨w, hw, heq⟩
    · rw [heq]
      exact hInv
    · rw [heq]
      refine hInv.modify _ ?_
      constructor
      · intro fid hfid
        rw [← Option.some.inj hfid]
        exact List.mem_map_of_mem WindowState.window hw
      · intro hnil
        exact absurd (hnil ▸ hw) (List.not_mem_nil w)
  | keyNextTag c =>
    replace h : refresh (change_active_tag s (nextTagIndex s.active_tag c)) = some s' := h
    exact focusInv_of_skel (refresh_skel h)
      (focusInv_change_tag hInv (nextTagIndex_lt s.active_tag c))
  | keySwapMaster =>
    replace h : (swap_master s).bind refresh = some s' := h
    obtain ⟨s1, hs1, hr⟩ := Option.bind_eq_some.mp h
    refine focusInv_of_skel (refresh_skel hr) ?_
    rcases swap_master_cases hs1 with heq | ⟨i, j, heq⟩
    · rw [heq]
      exact hInv
    · rw [heq]
      exact hInv.modify _ (tagOk_setWindows _ (listSwap_perm _ i j) hInv.activeOk)
  | enterNotify c e =>
    replace h : handle_enter s c e = some s' := h
    unfold handle_enter at h
    have hone : ∀ (s₀ : StateHandler) (x : Nat), FocusInvariant s₀ →
        FocusInvariant (match get_window_state s₀ x with
          | some w => modifyActive s₀ fun t => { t with focus := some w.window }
          | none => s₀) := by
      intro s₀ x h₀
      cases hf : get_window_state s₀ x with
      | none => exact h₀
      | some w =>
        refine h₀.modify _ ?_
        have hw : w ∈ (activeTag s₀).windows := List.mem_of_find?_eq_some hf
        constructor
        · intro fid hfid
          rw [← Option.some.inj hfid]
          exact List.mem_map_of_mem WindowState.window hw
        · intro hnil
          exact absurd (hnil ▸ hw) (List.not_mem_nil w)
    exact focusInv_of_skel (refresh_skel h) (hone _ e (hone s c hInv))
  | configureRequest id x y wd ht =>
    replace h : some (handle_config s id x y wd ht).1 = some s' := h
    rw [← Option.some.inj h]
    unfold handle_config
    split
    · exact hInv
    · refine hInv.modify _ ?_
      exact tagOk_setWindowsMap _
        (updateFirst_map_of_proj WindowState.window
          (fun w => by unfold adoptIfFloating; split <;> rfl) _)
        hInv.activeOk
  | clientMessageFullscreen id flag =>
    replace h : handle_client_message s id flag = some s' := h
    unfold handle_client_message at h
    split at h
    · rw [← Option.some.inj h]
      exact hInv
    · have hgrp : ∀ g : WindowGroup, FocusInvariant (setGroupOfWindow s id g) := by
        intro g
        refine hInv.modify _ ?_
        exact tagOk_setWindowsMap _
          (updateFirst_map_of_proj WindowState.window (fun w => by rfl) _) hInv.activeOk
      split at h
      · exact focusInv_of_skel (refresh_skel h) (hgrp WindowGroup.Stack)
      · split at h
        · exact focusInv_of_skel (refresh_skel h) (hgrp WindowGroup.Fullscreen)
        · rw [← Option.some.inj h]
          exact hInv

theorem focusInv_init (info : TilingInfo) : FocusInvariant (StateHandler.new info) := by
  refine ⟨by simp [StateHandler.new], show (0 : Nat) < 9 by decide, ?_⟩
  intro i hi
  interval_cases i <;>
    exact ⟨fun fid hf => Option.noConfusion hf, fun _ => rfl⟩

/-- C6: in every state reachable from the startup state by handled events,
every tag's focus (when set) names a window currently in that tag, and an
empty tag's focus is `none` (with the nine tags and the active-tag index
always in range). -/
theorem C6_focus_invariant (info : TilingInfo) (s : StateHandler)
    (h : Reachable info s) : FocusInvariant s := by
  induction h with
  | init => exact focusInv_init info
  | tr _ hstep ih => exact focusInv_step ih hstep

/-- C6 witness: the focus invariant at the startup state. -/
theorem C6_witness : FocusInvariant (StateHandler.new info1920) :=
  C6_focus_invariant info1920 (StateHandler.new info1920) Reachable.init

/-! The uniqueness invariant: per-operation preservation lemmas, then the
per-event step lemma over `goodEvent` and the reachability induction. -/

theorem uniq_modify {s : StateHandler} (h : UniqueInvariant s) (f : Tag → Tag)
    (hsub : ∀ x ∈ (f (activeTag s)).windows.map WindowState.window,
      x ∈ (activeTag s).windows.map WindowState.window)
    (hnd : ((activeTag s).windows.map WindowState.window).Nodup →
      ((f (activeTag s)).windows.map WindowState.window).Nodup) :
    UniqueInvariant (modifyActive s f) := by
  obtain ⟨hl, ha, hndAll, hdisj⟩ := h
  have hlt : s.active_tag < s.tags.length := by omega
  have hId : ∀ i, IdsAt (modifyActive s f) i
      = if i = s.active_tag then (f (activeTag s)).windows.map WindowState.window
        else IdsAt s i := by
    intro i
    by_cases hi : i = s.active_tag
    · rw [hi, if_pos rfl]
      show ((s.tags.set s.active_tag (f (activeTag s))).getD s.active_tag
        (Tag.new 0)).windows.map WindowState.window = _
      rw [getD_set_same _ _ _ _ hlt]
    · rw [if_neg hi]
      show ((s.tags.set s.active_tag (f (activeTag s))).getD i
        (Tag.new 0)).windows.map WindowState.window = _
      rw [getD_set_ne _ _ _ (fun hh => hi hh.symm)]
      rfl
  refine ⟨(modifyActive_tags_length s f).trans hl, ha, ?_, ?_⟩
  · intro i hi
    rw [hId i]
    by_cases hia : i = s.active_tag
    · rw [if_pos hia]
      exact hnd (hndAll s.active_tag ha)
    · rw [if_neg hia]
      exact hndAll i hi
  · intro i j hi hj hij x hx
    rw [hId i] at hx
    rw [hId j]
    by_cases hia : i = s.active_tag
    · rw [if_pos hia] at hx
      rw [if_neg (show j ≠ s.active_tag by omega)]
      refine hdisj i j hi hj hij x ?_
      rw [hia]
      exact hsub x hx
    · rw [if_neg hia] at hx
      by_cases hja : j = s.active_tag
      · rw [if_pos hja]
        intro hxj
        refine hdisj i j hi hj hij x hx ?_
        rw [hja]
        exact hsub x hxj
      · rw [if_neg hja]
        exact hdisj i j hi hj hij x hx

theorem uniq_modify_eq {s : StateHandler} (h : UniqueInvariant s) (f : Tag → Tag)
    (hEq : (f (activeTag s)).windows.map WindowState.window
      = (activeTag s).windows.map WindowState.window) :
    UniqueInvariant (modifyActive s f) :=
  uniq_modify h f (fun x hx => hEq ▸ hx) (fun hh => hEq.symm ▸ hh)

theorem uniq_focus_master {s : StateHandler} (h : UniqueInvariant s) :
    UniqueInvariant (set_tag_focus_to_master s) :=
  uniq_modify_eq h _ rfl

theorem uniq_filter {s : StateHandler} (h : UniqueInvariant s)
    (p : WindowState → Bool) :
    UniqueInvariant (modifyActive s fun t => { t with windows := t.windows.filter p }) := by
  refine uniq_modify h _ ?_ ?_
  · intro x hx
    obtain ⟨a, haf, hax⟩ := List.mem_map.mp hx
    exact hax ▸ List.mem_map_of_mem WindowState.window (List.mem_of_mem_filter haf)
  · intro hh
    exact List.Nodup.sublist ((List.filter_sublist _).map WindowState.window) hh

theorem uniq_add {s : StateHandler} (h : UniqueInvariant s) {w : Nat}
    (hw : ∀ i < 9, w ∉ IdsAt s i) (f : Nat) :
    UniqueInvariant (add_window s (WindowState.new w f)) := by
  obtain ⟨hl, ha, hndAll, hdisj⟩ := h
  have hlt : s.active_tag < s.tags.length := by omega
  have hId : ∀ i, IdsAt (add_window s (WindowState.new w f)) i
      = if i = s.active_tag then IdsAt s i ++ [w] else IdsAt s i := by
    intro i
    by_cases hi : i = s.active_tag
    · rw [hi, if_pos rfl]
      show ((s.tags.set s.active_tag _).getD s.active_tag
        (Tag.new 0)).windows.map WindowState.window = _
      rw [getD_set_same _ _ _ _ hlt]
      show ((activeTag s).windows ++ [WindowState.new w f]).map WindowState.window = _
      rw [List.map_append]
      rfl
    · rw [if_neg hi]
      show ((s.tags.set s.active_tag _).getD i
        (Tag.new 0)).windows.map WindowState.window = _
      rw [getD_set_ne _ _ _ (fun hh => hi hh.symm)]
      rfl
  refine ⟨(modifyActive_tags_length s _).trans hl, ha, ?_, ?_⟩
  · intro i hi
    rw [hId i]
    by_cases hia : i = s.active_tag
    · rw [if_pos hia]
      rw [List.nodup_append]
      refine ⟨hndAll i hi, List.nodup_singleton w, ?_⟩
      intro a hax hacf
      rw [List.mem_singleton] at hacf
      exact hw i hi (hacf ▸ hax)
    · rw [if_neg hia]
      exact hndAll i hi
  · intro i j hi hj hij x hx
    rw [hId i] at hx
    rw [hId j]
    by_cases hia : i = s.active_tag
    · rw [if_pos hia] at hx
      rw [if_neg (show j ≠ s.active_tag by omega)]
      rcases List.mem_append.mp hx with hx1 | hx2
      · exact hdisj i j hi hj hij x hx1
      · rw [List.mem_singleton] at hx2
        rw [hx2]
        exact hw j hj
    · rw [if_neg hia] at hx
      by_cases hja : j = s.active_tag
      · rw [if_pos hja]
        intro hmem
        rcases List.mem_append.mp hmem with h1 | h2
        · exact hdisj i j hi hj hij x hx h1
        · rw [List.mem_singleton] at h2
          exact hw i hi (h2 ▸ hx)
      · rw [if_neg hja]
        exact hdisj i j hi hj hij x hx

theorem uniq_change_tag {s : StateHandler} (h : UniqueInvariant s) {n : Nat}
    (hn : n < 9) : UniqueInvariant (change_active_tag s n) := by
  unfold change_active_tag
  split
  · exact h
  · obtain ⟨hl, _, hnd, hd⟩ := h
    exact ⟨hl, hn, hnd, hd⟩

theorem map_window_filter_ne (cf : Nat) (l : List WindowState) :
    (l.filter (fun w => w.window != cf)).map WindowState.window
      = (l.map WindowState.window).filter (fun x => x != cf) := by
  induction l with
  | nil => rfl
  | cons w ws ih =>
    simp only [List.filter_cons, List.map_cons]
    by_cases h : (w.window != cf) = true
    · rw [if_pos h, List.map_cons, ih, if_pos h]
    · rw [if_neg h, ih, if_neg h]

theorem uniq_transfer {s s' : StateHandler} (hInv : UniqueInvariant s) {n cf : Nat}
    (hn : n < 9) (hne : s.active_tag ≠ n)
    (hl9 : s'.tags.length = 9) (ha9 : s'.active_tag = s.active_tag)
    (hcfA : cf ∈ IdsAt s s.active_tag)
    (hIdA : IdsAt s' s.active_tag = (IdsAt s s.active_tag).filter (fun x => x != cf))
    (hIdn : IdsAt s' n = IdsAt s n ++ [cf])
    (hIdo : ∀ i, i ≠ s.active_tag → i ≠ n → IdsAt s' i = IdsAt s i) :
    UniqueInvariant s' := by
  obtain ⟨hl, ha, hndAll, hdisj⟩ := hInv
  have hcfn : cf ∉ IdsAt s n := hdisj s.active_tag n ha hn hne cf hcfA
  have hchar : ∀ k, ∀ x ∈ IdsAt s' k,
      (x ∈ IdsAt s k ∧ (k = s.active_tag → x ≠ cf)) ∨ (k = n ∧ x = cf) := by
    intro k x hx
    by_cases hkA : k = s.active_tag
    · rw [hkA, hIdA] at hx
      refine Or.inl ⟨?_, fun _ => ?_⟩
      · rw [hkA]
        exact List.mem_of_mem_filter hx
      · have := List.of_mem_filter hx
        simpa using this
    · by_cases hkn : k = n
      · rw [hkn, hIdn] at hx
        rcases List.mem_append.mp hx with h1 | h2
        · exact Or.inl ⟨hkn ▸ h1, fun hc => absurd hc hkA⟩
        · exact Or.inr ⟨hkn, List.mem_singleton.mp h2⟩
      · rw [hIdo k hkA hkn] at hx
        exact Or.inl ⟨hx, fun hc => absurd hc hkA⟩
  refine ⟨hl9, by omega, ?_, ?_⟩
  · intro i hi
    by_cases hiA : i = s.active_tag
    · rw [hiA, hIdA]
      exact (hndAll s.active_tag ha).filter _
    · by_cases hin : i = n
      · rw [hin, hIdn, List.nodup_append]
        refine ⟨hndAll n hn, List.nodup_singleton cf, ?_⟩
        intro a hax hacf
        rw [List.mem_singleton] at hacf
        exact hcfn (hacf ▸ hax)
      · rw [hIdo i hiA hin]
        exact hndAll i hi
  · intro i j hi hj hij x hx
    intro hxj
    rcases hchar i x hx with ⟨hxi, hciA⟩ | ⟨hin, hxcf⟩
    · rcases hchar j x hxj with ⟨hxj2, _⟩ | ⟨hjn, hxcf⟩
      · exact hdisj i j hi hj hij x hxi hxj2
      · by_cases hiA : i = s.active_tag
        · exact (hciA hiA) hxcf
        · exact hdisj s.active_tag i ha hi (fun hh => hiA hh.symm) cf hcfA (hxcf ▸ hxi)
    · rcases hchar j x hxj with ⟨hxj2, hcjA⟩ | ⟨hjn, _⟩
      · by_cases hjA : j = s.active_tag
        · exact (hcjA hjA) hxcf
        · exact hdisj s.active_tag j ha hj (fun hh => hjA hh.symm) cf hcfA (hxcf ▸ hxj2)
      · exact hij (hin.trans hjn.symm)

theorem uniq_move_core {s : StateHandler} (hInv : UniqueInvariant s) {n : Nat}
    (hn : n < 9) (hne : s.active_tag ≠ n) {st : WindowState} {cf : Nat}
    (hstmem : st ∈ (activeTag s).windows) (hstw : st.window = cf) :
    UniqueInvariant (set_tag_focus_to_master (modifyActive
      { s with tags := (s.tags.set n
          { (s.tags.getD n (Tag.new 0)) with
            windows := ((s.tags.getD n (Tag.new 0)).windows ++ [st]) }) }
      (fun t => { t with windows := (t.windows.filter (fun w => w.window != cf)) }))) := by
  have hlt : s.active_tag < s.tags.length := by
    have := hInv.1
    have := hInv.2.1
    omega
  have hnlt : n < s.tags.length := by
    have := hInv.1
    omega
  have hcfA : cf ∈ IdsAt s s.active_tag :=
    hstw ▸ List.mem_map_of_mem WindowState.window hstmem
  refine uniq_transfer hInv hn hne ?_ rfl hcfA ?_ ?_ ?_
  · show (((s.tags.set n _).set s.active_tag _).set s.active_tag _).length = 9
    simp only [List.length_set]
    exact hInv.1
  · show ((((s.tags.set n _).set s.active_tag _).set s.active_tag _).getD s.active_tag
      (Tag.new 0)).windows.map WindowState.window = _
    rw [getD_set_same _ _ _ _ (by simp only [List.length_set]; exact hlt)]
    show (((s.tags.set n _).set s.active_tag _).getD s.active_tag
      (Tag.new 0)).windows.map WindowState.window = _
    rw [getD_set_same _ _ _ _ (by simp only [List.length_set]; exact hlt)]
    show (((s.tags.set n _).getD s.active_tag (Tag.new 0)).windows.filter
      (fun w => w.window != cf)).map WindowState.window = _
    rw [getD_set_ne _ _ _ (fun hh => hne hh.symm)]
    exact map_window_filter_ne cf _
  · show ((((s.tags.set n _).set s.active_tag _).set s.active_tag _).getD n
      (Tag.new 0)).windows.map WindowState.window = _
    rw [getD_set_ne _ _ _ hne, getD_set_ne _ _ _ hne, getD_set_same _ _ _ _ hnlt]
    show ((s.tags.getD n (Tag.new 0)).windows ++ [st]).map WindowState.window = _
    rw [List.map_append]
    show _ ++ [st.window] = _
    rw [hstw]
    rfl
  · intro i hiA hin
    show ((((s.tags.set n _).set s.active_tag _).set s.active_tag _).getD i
      (Tag.new 0)).windows.map WindowState.window = _
    rw [getD_set_ne _ _ _ (fun hh => hiA hh.symm), getD_set_ne _ _ _ (fun hh => hiA hh.symm),
      getD_set_ne _ _ _ (fun hh => hin hh.symm)]
    rfl

theorem uniq_move {s : StateHandler} (hInv : UniqueInvariant s) {n : Nat} (hn : n < 9)
    {cf : Nat} (hg : ∀ w ∈ (activeTag s).windows, w.frame_window ≠ cf) :
    UniqueInvariant (move_window s n cf) := by
  unfold move_window
  split
  · exact hInv
  · rename_i hne
    cases hst : get_window_state s cf with
    | none => exact hInv
    | some st =>
      have hstmem : st ∈ (activeTag s).windows := List.mem_of_find?_eq_some hst
      have hstw : st.window = cf := by
        have hp := List.find?_some hst
        unfold winMatch at hp
        simp only [Bool.or_eq_true, beq_iff_eq] at hp
        rcases hp with h1 | h2
        · exact h1
        · exact absurd h2 (hg st hstmem)
      exact uniq_move_core hInv hn hne hstmem hstw

theorem uniq_step {s s' : StateHandler} {e : WMEvent} (hInv : UniqueInvariant s)
    (hg : goodEvent s e) (h : step s e = some s') : UniqueInvariant s' := by
  cases e with
  | mapRequest w f =>
    replace h : handle_map_request s w f = some s' := h
    unfold handle_map_request at h
    split at h
    · rw [← Option.some.inj h]
      exact hInv
    · exact uniq_of_skel (refresh_skel h) (uniq_add hInv hg f)
  | unmapNotify w =>
    replace h : handle_unmap_notify s w = some s' := h
    unfold handle_unmap_notify at h
    split at h
    · rw [← Option.some.inj h]
      exact hInv
    · exact uniq_of_skel (refresh_skel h)
        (uniq_focus_master (uniq_filter hInv _))
  | keySwitchTag n =>
    replace h : refresh (change_active_tag s n) = some s' := h
    exact uniq_of_skel (refresh_skel h) (uniq_change_tag hInv n.isLt)
  | keyMoveWindow n cf =>
    replace h : refresh (move_window s n cf) = some s' := h
    exact uniq_of_skel (refresh_skel h) (uniq_move hInv n.isLt hg)
  | keySpawn =>
    replace h : refresh s = some s' := h
    exact uniq_of_skel (refresh_skel h) hInv
  | keyExitFocused =>
    replace h : (if (get_focus s).isSome then refresh s else some s) = some s' := h
    split at h
    · exact uniq_of_skel (refresh_skel h) hInv
    · rw [← Option.some.inj h]
      exact hInv
  | keyChangeRatio d =>
    replace h : refresh { s with tiling :=
        { s.tiling with ratio := clampRatio (s.tiling.ratio + d) } } = some s' := h
    refine uniq_of_skel (refresh_skel h) ?_
    exact ⟨hInv.1, hInv.2.1, hInv.2.2.1, hInv.2.2.2⟩
  | keyNextFocus c =>
    replace h : (switch_focus_next s c).bind refresh = some s' := h
    obtain ⟨s1, hs1, hr⟩ := Option.bind_eq_some.mp h
    refine uniq_of_skel (refresh_skel hr) ?_
    rcases switch_focus_next_cases hs1 with heq | ⟨w, hw, heq⟩
    · rw [heq]
      exact hInv
    · rw [heq]
      exact uniq_modify_eq hInv _ rfl
  | keyNextTag c =>
    replace h : refresh (change_active_tag s (nextTagIndex s.active_tag c)) = some s' := h
    exact uniq_of_skel (refresh_skel h)
      (uniq_change_tag hInv (nextTagIndex_lt s.active_tag c))
  | keySwapMaster =>
    replace h : (swap_master s).bind refresh = some s' := h
    obtain ⟨s1, hs1, hr⟩ := Option.bind_eq_some.mp h
    refine uniq_of_skel (refresh_skel hr) ?_
    rcases swap_master_cases hs1 with heq | ⟨i, j, heq⟩
    · rw [heq]
      exact hInv
    · rw [heq]
      refine uniq_modify hInv _ ?_ ?_
      · intro x hx
        exact (((listSwap_perm (activeTag s).windows i j).map WindowState.window).mem_iff).mp hx
      · intro hh
        exact (((listSwap_perm (activeTag s).windows i j).map WindowState.window).nodup_iff).mpr hh
  | enterNotify c e =>
    replace h : handle_enter s c e = some s' := h
    unfold handle_enter at h
    have hone : ∀ (s₀ : StateHandler) (x : Nat), UniqueInvariant s₀ →
        UniqueInvariant (match get_window_state s₀ x with
          | some w => modifyActive s₀ fun t => { t with focus := some w.window }
          | none => s₀) := by
      intro s₀ x h₀
      cases hf : get_window_state s₀ x with
      | none => exact h₀
      | some w => exact uniq_modify_eq h₀ _ rfl
    exact uniq_of_skel (refresh_skel h) (hone _ e (hone s c hInv))
  | configureRequest id x y wd ht =>
    replace h : some (handle_config s id x y wd ht).1 = some s' := h
    rw [← Option.some.inj h]
    unfold handle_config
    split
    · exact hInv
    · refine uniq_modify_eq hInv _ ?_
      exact updateFirst_map_of_proj WindowState.window
        (fun w => by unfold adoptIfFloating; split <;> rfl) _
  | clientMessageFullscreen id flag =>
    replace h : handle_client_message s id flag = some s' := h
    unfold handle_client_message at h
    split at h
    · rw [← Option.some.inj h]
      exact hInv
    · have hgrp : ∀ g : WindowGroup, UniqueInvariant (setGroupOfWindow s id g) := by
        intro g
        refine uniq_modify_eq hInv _ ?_
        exact updateFirst_map_of_proj WindowState.window (fun w => by rfl) _
      split at h
      · exact uniq_of_skel (refresh_skel h) (hgrp WindowGroup.Stack)
      · split at h
        · exact uniq_of_skel (refresh_skel h) (hgrp WindowGroup.Fullscreen)
        · rw [← Option.some.inj h]
          exact hInv

theorem uniq_init (info : TilingInfo) : UniqueInvariant (StateHandler.new info) := by
  refine ⟨by simp [StateHandler.new], show (0 : Nat) < 9 by decide, ?_, ?_⟩
  · intro i hi
    interval_cases i <;> exact List.nodup_nil
  · intro i j hi hj hij x hx
    interval_cases i <;> exact absurd hx (List.not_mem_nil x)

/-- C4 (amended): in every state reachable from the startup state by
handled events in which each map request names a window id tracked in no
tag and each move-to-tag key press happens while the externally read focus
id is not the frame id of any active-tag window, every window id appears
in at most one of the nine tags and at most once within that tag. -/
theorem C4_unique_invariant (info : TilingInfo) (s : StateHandler)
    (h : ReachableSafe info s) : UniqueInvariant s := by
  induction h with
  | init => exact uniq_init info
  | tr _ hg hstep ih => exact uniq_step ih hg hstep

/-- C4 witness: the uniqueness invariant at the startup state. -/
theorem C4_witness : UniqueInvariant (StateHandler.new info1920) :=
  C4_unique_invariant info1920 (StateHandler.new info1920) ReachableSafe.init

end Hematite
